import Mathlib

/-!
# Employee management service: a shallow embedding

The development embeds the business-logic layer of the employee management
REST API (`internal/usecase/employee/service.go`) together with the pieces of
the domain package (`internal/domain`) and of the HTTP handler
(`internal/delivery/httpapi/handlers/employee_handler.go`) that it touches.

Conventions of the embedding:

* Go strings are Lean strings (sequences of Unicode code points; the strings
  the program receives come out of the JSON decoder and are valid UTF-8).
* `int64` values are integers; the service only compares them with constants.
* `float64` values are modelled by `Float64`: the three special values and the
  finite values, carried as rationals, with the IEEE comparison.
* `time.Time` is an instant (nanoseconds since the epoch) with a location.
* The repository is an interface: it is a record of state-passing functions
  over an abstract store `σ`. A method taking `*Employee` returns the value the
  pointer holds afterwards. The clock `now` runs over its own state `κ`.
* Library behaviour that is not part of the repository and cannot be
  evaluated here is a parameter: the Unicode case table for runes outside
  ASCII (`Unicode`), and the validator's email pattern (`Validate`).
-/

namespace EmployeeMgmt

/-! ## Standard library: strings, floats, time -/

/-- Case table of the Go `unicode` package for runes outside ASCII. -/
structure Unicode where
  toLowerTable : Char → Char

/-- Go `unicode.ToLower`: ASCII is handled inline, the rest by table. -/
def Unicode.ToLower (u : Unicode) (r : Char) : Char :=
  if r.toNat < 128 then
    if 'A'.toNat ≤ r.toNat ∧ r.toNat ≤ 'Z'.toNat then Char.ofNat (r.toNat + 32) else r
  else u.toLowerTable r

/-- Go `strings.ToLower`: every rune mapped through `unicode.ToLower`. -/
def ToLower (u : Unicode) (s : String) : String :=
  ⟨s.data.map u.ToLower⟩

/-- Go `unicode.IsSpace`: the code points with the White_Space property. -/
def IsSpace (r : Char) : Bool :=
  let n := r.toNat
  (9 ≤ n && n ≤ 13) || n == 32 || n == 0x85 || n == 0xA0 || n == 0x1680 ||
  (0x2000 ≤ n && n ≤ 0x200A) || n == 0x2028 || n == 0x2029 || n == 0x202F ||
  n == 0x205F || n == 0x3000

/-- Leading and trailing white space removed from a rune sequence. -/
def trimRunes (l : List Char) : List Char :=
  ((l.dropWhile IsSpace).reverse.dropWhile IsSpace).reverse

/-- Go `strings.TrimSpace`. -/
def TrimSpace (s : String) : String :=
  ⟨trimRunes s.data⟩

/-- Go `utf8.RuneCountInString`. -/
def RuneCount (s : String) : Nat :=
  s.data.length

/-- Values of Go's `float64`: finite values are carried as rationals. -/
inductive Float64 where
  | nan
  | negInf
  | posInf
  | finite (q : ℚ)
deriving DecidableEq

/-- IEEE `a <= b` (false whenever an operand is NaN). -/
def Float64.le : Float64 → Float64 → Bool
  | .nan, _ => false
  | _, .nan => false
  | .negInf, _ => true
  | _, .posInf => true
  | .finite a, .finite b => decide (a ≤ b)
  | .finite _, .negInf => false
  | .posInf, _ => false

/-- IEEE `a < b` (false whenever an operand is NaN). -/
def Float64.lt : Float64 → Float64 → Bool
  | .nan, _ => false
  | _, .nan => false
  | .finite a, .finite b => decide (a < b)
  | .negInf, .negInf => false
  | .negInf, _ => true
  | .posInf, _ => false
  | .finite _, .posInf => true
  | .finite _, .negInf => false

/-- Location attached to a `time.Time`. -/
inductive Location where
  | UTC
  | Local
  | named (name : String)
deriving DecidableEq

/-- Go `time.Time`: an instant in nanoseconds since the epoch, and a location. -/
structure Time where
  nsec : Int
  loc : Location
deriving DecidableEq

/-- Go `Time.UTC`: same instant, location set to UTC. -/
def Time.UTC (t : Time) : Time :=
  { t with loc := Location.UTC }

/-- Go `Time.After`: the instant of `t` is strictly later than that of `u`. -/
def Time.After (t u : Time) : Prop :=
  u.nsec < t.nsec

instance (t u : Time) : Decidable (t.After u) :=
  inferInstanceAs (Decidable (u.nsec < t.nsec))

/-! ## Domain package: errors -/

/-- Go `domain.ErrorKind`, a string type. -/
abbrev ErrorKind := String

def ErrKindNotFound : ErrorKind := "not_found"
def ErrKindConflict : ErrorKind := "conflict"
def ErrKindValidation : ErrorKind := "validation"
def ErrKindUnauthorized : ErrorKind := "unauthorized"
def ErrKindForbidden : ErrorKind := "forbidden"
def ErrKindInternal : ErrorKind := "internal"

/-- One link of an error chain: a `domain.Error` value (kind and message), or
an error of another dynamic type, of which only the class and text matter. -/
inductive ErrNode where
  | domain (kind : ErrorKind) (message : String)
  | validatorErrors (text : String)
  | jsonUnmarshalType (text : String)
  | jsonSyntax (text : String)
  | plain (text : String)
deriving DecidableEq

/-- A non-nil Go `error`: its outermost value and the chain reached by
repeated `Unwrap` (for a `domain.Error` the chain of its `Cause`). -/
structure GoError where
  node : ErrNode
  chain : List ErrNode
deriving DecidableEq

/-- Go `domain.NotFound`. -/
def NotFound (msg : String) : GoError := ⟨ErrNode.domain ErrKindNotFound msg, []⟩

/-- Go `domain.Conflict`. -/
def Conflict (msg : String) : GoError := ⟨ErrNode.domain ErrKindConflict msg, []⟩

/-- Go `domain.Validation`. -/
def Validation (msg : String) : GoError := ⟨ErrNode.domain ErrKindValidation msg, []⟩

/-- Go `domain.Internal`: the cause and what it wraps become the chain. -/
def Internal (msg : String) (cause : Option GoError) : GoError :=
  match cause with
  | none => ⟨ErrNode.domain ErrKindInternal msg, []⟩
  | some c => ⟨ErrNode.domain ErrKindInternal msg, c.node :: c.chain⟩

/-- The error is a `domain.Error` value of the given kind. -/
def GoError.hasKind (e : GoError) (k : ErrorKind) : Prop :=
  ∃ msg, e.node = ErrNode.domain k msg

/-! ## Domain package: the employee entity and the repository interface -/

/-- Go `employee.Status`, a string type. -/
abbrev Status := String

def StatusActive : Status := "active"
def StatusInactive : Status := "inactive"

/-- Go `employee.Employee`. -/
structure Employee where
  ID : String
  FirstName : String
  LastName : String
  Email : String
  Department : String
  Position : String
  Salary : Float64
  Status : Status
  CreatedAt : Time
  UpdatedAt : Time
deriving DecidableEq

/-- Go `employee.ListFilter`. -/
structure ListFilter where
  Department : Option String
  Status : Option Status
  Query : Option String
deriving DecidableEq

/-- Go `employee.ListPage`. -/
structure ListPage where
  Limit : Int
  Offset : Int
deriving DecidableEq

/-- Go `employee.Repository`. Every method runs over the store `σ`; a method
that receives `*Employee` also returns the value left behind the pointer. -/
structure Repository (σ : Type) where
  Create : σ → Employee → σ × Employee × Option GoError
  GetByID : σ → String → σ × Option Employee × Option GoError
  GetByEmail : σ → String → σ × Option Employee × Option GoError
  List : σ → ListFilter → ListPage → σ × List Employee × Int × Option GoError
  Update : σ → Employee → σ × Employee × Option GoError
  Delete : σ → String → σ × Option GoError

/-! ## The validator (`go-playground/validator/v10`) on the two input structs

`validate.Struct` visits the fields in declaration order, runs the rules of a
field in tag order and records the first rule that fails. A rule set that opens
with `omitempty` is skipped for an empty string in a `string` field and for a
nil pointer; a non-nil pointer counts as a value whatever it points to. -/

/-- The validator instance; its email pattern is a parameter. -/
structure Validate where
  emailRegex : String → Bool

/-- One entry of `validator.ValidationErrors`. -/
structure FieldError where
  ns : String
  field : String
  tag : String
deriving DecidableEq

/-- Text of one field error. -/
def FieldError.Error (fe : FieldError) : String :=
  "Key: '" ++ fe.ns ++ "' Error:Field validation for '" ++ fe.field ++
    "' failed on the '" ++ fe.tag ++ "' tag"

/-- Text of `validator.ValidationErrors`: one line per field error. -/
def validationErrorsText (errs : List FieldError) : String :=
  String.intercalate "\n" (errs.map FieldError.Error)

/-- First rule of a field that fails, given the rules (tag, holds) in tag order. -/
def firstFailed (rules : List (String × Bool)) : Option String :=
  (rules.find? (fun r => !r.2)).map Prod.fst

/-- Field error of a field, if one of its rules fails. -/
def checkField (struct field : String) (rules : List (String × Bool)) : List FieldError :=
  match firstFailed rules with
  | none => []
  | some tag => [⟨struct ++ "." ++ field, field, tag⟩]

/-- Rules `min=lo,max=hi` on a string: bounds on the rune count. -/
def lengthRules (s : String) (lo hi : Nat) : List (String × Bool) :=
  [("min", decide (lo ≤ RuneCount s)), ("max", decide (RuneCount s ≤ hi))]

/-- Rules `required,min=lo,max=hi` on a string. -/
def requiredLengthRules (s : String) (lo hi : Nat) : List (String × Bool) :=
  ("required", decide (s ≠ "")) :: lengthRules s lo hi

/-- Rules `email,max=320` on a string. -/
def emailRules (v : Validate) (s : String) : List (String × Bool) :=
  [("email", v.emailRegex s), ("max", decide (RuneCount s ≤ 320))]

/-- Rules `gte=0,lte=1000000000` on a float. -/
def salaryRules (x : Float64) : List (String × Bool) :=
  [("gte", Float64.le (Float64.finite 0) x), ("lte", Float64.le x (Float64.finite 1000000000))]

/-- Rule `oneof=active inactive` on a string. -/
def statusRules (s : String) : List (String × Bool) :=
  [("oneof", decide (s = "active" ∨ s = "inactive"))]

/-! ## Use-case package: inputs -/

/-- Go `employee.CreateInput` (use-case package). -/
structure CreateInput where
  FirstName : String
  LastName : String
  Email : String
  Department : String
  Position : String
  Salary : Float64
  Status : String
deriving DecidableEq

/-- Go `employee.UpdateInput`: every field is a pointer, nil when absent. -/
structure UpdateInput where
  FirstName : Option String
  LastName : Option String
  Email : Option String
  Department : Option String
  Position : Option String
  Salary : Option Float64
  Status : Option String
deriving DecidableEq

/-- Go `employee.ListInput`. -/
structure ListInput where
  Department : Option String
  Status : Option String
  Query : Option String
  Limit : Int
  Offset : Int
deriving DecidableEq

/-- The call `validate.Struct(in)` for a `CreateInput`, by its struct tags. -/
def Validate.StructCreate (v : Validate) (inp : CreateInput) : List FieldError :=
  checkField "CreateInput" "FirstName" (requiredLengthRules inp.FirstName 1 100) ++
  checkField "CreateInput" "LastName" (requiredLengthRules inp.LastName 1 100) ++
  checkField "CreateInput" "Email" (("required", decide (inp.Email ≠ "")) :: emailRules v inp.Email) ++
  checkField "CreateInput" "Department" (requiredLengthRules inp.Department 1 120) ++
  checkField "CreateInput" "Position" (requiredLengthRules inp.Position 1 120) ++
  checkField "CreateInput" "Salary" (salaryRules inp.Salary) ++
  checkField "CreateInput" "Status" (if inp.Status = "" then [] else statusRules inp.Status)

/-- Rules of an `omitempty` pointer field: none when nil, else those of the pointee. -/
def pointerRules {α : Type} (p : Option α) (rules : α → List (String × Bool)) : List (String × Bool) :=
  match p with
  | none => []
  | some x => rules x

/-- The call `validate.Struct(in)` for an `UpdateInput`, by its struct tags. -/
def Validate.StructUpdate (v : Validate) (inp : UpdateInput) : List FieldError :=
  checkField "UpdateInput" "FirstName" (pointerRules inp.FirstName (fun s => lengthRules s 1 100)) ++
  checkField "UpdateInput" "LastName" (pointerRules inp.LastName (fun s => lengthRules s 1 100)) ++
  checkField "UpdateInput" "Email" (pointerRules inp.Email (emailRules v)) ++
  checkField "UpdateInput" "Department" (pointerRules inp.Department (fun s => lengthRules s 1 120)) ++
  checkField "UpdateInput" "Position" (pointerRules inp.Position (fun s => lengthRules s 1 120)) ++
  checkField "UpdateInput" "Salary" (pointerRules inp.Salary salaryRules) ++
  checkField "UpdateInput" "Status" (pointerRules inp.Status statusRules)

/-! ## Use-case package: the service -/

/-- Go `employee.Service`: repository, validator and clock. The clock is a
state-passing function over its own state `κ`. -/
structure Service (σ κ : Type) where
  repo : Repository σ
  validate : Validate
  now : κ → Time × κ

/-- The record `Service.Create` builds before it calls the repository. -/
def newEmployee (inp : CreateInput) (status : Status) (now : Time) : Employee where
  ID := ""
  FirstName := inp.FirstName
  LastName := inp.LastName
  Email := inp.Email
  Department := inp.Department
  Position := inp.Position
  Salary := inp.Salary
  Status := status
  CreatedAt := now
  UpdatedAt := now

/-- Go `Service.Create`. -/
def Service.Create {σ κ : Type} (s : Service σ κ) (u : Unicode) (inp : CreateInput) (st : σ) (ck : κ) :
    σ × κ × Except GoError Employee :=
  let inp := { inp with Email := TrimSpace (ToLower u inp.Email) }
  match s.validate.StructCreate inp with
  | _ :: _ => (st, ck, .error (Validation (validationErrorsText (s.validate.StructCreate inp))))
  | [] =>
    match s.repo.GetByEmail st inp.Email with
    | (st1, _, some err) => (st1, ck, .error err)
    | (st1, some _, none) => (st1, ck, .error (Conflict "employee with this email already exists"))
    | (st1, none, none) =>
      let status := if inp.Status ≠ "" then inp.Status else StatusActive
      let (t, ck1) := s.now ck
      let e := newEmployee inp status t.UTC
      match s.repo.Create st1 e with
      | (st2, _, some err) => (st2, ck1, .error err)
      | (st2, e1, none) => (st2, ck1, .ok e1)

/-- Go `Service.Get`. -/
def Service.Get {σ κ : Type} (s : Service σ κ) (id : String) (st : σ) : σ × Except GoError Employee :=
  match s.repo.GetByID st id with
  | (st1, _, some err) => (st1, .error err)
  | (st1, none, none) => (st1, .error (NotFound "employee not found"))
  | (st1, some e, none) => (st1, .ok e)

/-- Go `Service.List`. -/
def Service.List {σ κ : Type} (s : Service σ κ) (u : Unicode) (inp : ListInput) (st : σ) :
    σ × List Employee × Int × Option GoError :=
  let limit := if inp.Limit ≤ 0 ∨ inp.Limit > 200 then 20 else inp.Limit
  let offset := if inp.Offset < 0 then 0 else inp.Offset
  let status : Option Status :=
    match inp.Status with
    | some v => if v ≠ "" then some (ToLower u (TrimSpace v)) else none
    | none => none
  let filter : ListFilter := ⟨inp.Department, status, inp.Query⟩
  let page : ListPage := ⟨limit, offset⟩
  s.repo.List st filter page

/-- The email block of `Service.Update` (the `if in.Email != nil` statement):
a supplied email that is non-empty after normalization and differs from the
current one is looked up; it is refused when another record owns it and
adopted otherwise. -/
def Service.adoptEmail {σ κ : Type} (s : Service σ κ) (u : Unicode) (e : Employee) (email : Option String)
    (st : σ) : σ × Except GoError Employee :=
  match email with
  | none => (st, .ok e)
  | some raw =>
    let v := TrimSpace (ToLower u raw)
    if v ≠ "" ∧ v ≠ e.Email then
      match s.repo.GetByEmail st v with
      | (st1, _, some err) => (st1, .error err)
      | (st1, some existing, none) =>
        if existing.ID ≠ e.ID then
          (st1, .error (Conflict "employee with this email already exists"))
        else (st1, .ok { e with Email := v })
      | (st1, none, none) => (st1, .ok { e with Email := v })
    else (st, .ok e)

/-- The field assignments of `Service.Update` that follow the email block. -/
def applyFields (e : Employee) (inp : UpdateInput) : Employee :=
  let e := match inp.FirstName with
    | some v => { e with FirstName := v }
    | none => e
  let e := match inp.LastName with
    | some v => { e with LastName := v }
    | none => e
  let e := match inp.Department with
    | some v => { e with Department := v }
    | none => e
  let e := match inp.Position with
    | some v => { e with Position := v }
    | none => e
  let e := match inp.Salary with
    | some v => { e with Salary := v }
    | none => e
  match inp.Status with
  | some v => if v ≠ "" then { e with Status := v } else e
  | none => e

/-- Go `Service.Update`. -/
def Service.Update {σ κ : Type} (s : Service σ κ) (u : Unicode) (id : String) (inp : UpdateInput)
    (st : σ) (ck : κ) : σ × κ × Except GoError Employee :=
  match s.validate.StructUpdate inp with
  | _ :: _ => (st, ck, .error (Validation (validationErrorsText (s.validate.StructUpdate inp))))
  | [] =>
    match s.Get id st with
    | (st1, .error err) => (st1, ck, .error err)
    | (st1, .ok e) =>
      match s.adoptEmail u e inp.Email st1 with
      | (st2, .error err) => (st2, ck, .error err)
      | (st2, .ok e1) =>
        let e2 := applyFields e1 inp
        let (t, ck1) := s.now ck
        let e3 := { e2 with UpdatedAt := t.UTC }
        match s.repo.Update st2 e3 with
        | (st3, _, some err) => (st3, ck1, .error err)
        | (st3, e4, none) => (st3, ck1, .ok e4)

/-- Go `Service.Delete`. -/
def Service.Delete {σ κ : Type} (s : Service σ κ) (id : String) (st : σ) : σ × Option GoError :=
  match s.Get id st with
  | (st1, .error err) => (st1, some err)
  | (st1, .ok _) => s.repo.Delete st1 id

/-! ## HTTP handler: how a create request reaches the service -/

/-- Go `handlers.createEmployeeReq`: the decoded JSON body. -/
structure createEmployeeReq where
  FirstName : String
  LastName : String
  Email : String
  Department : String
  Position : String
  Salary : Float64
  Status : String
deriving DecidableEq

/-- The `CreateInput` that `EmployeeHandler.Create` builds from the request. -/
def createInputOf (req : createEmployeeReq) : CreateInput where
  FirstName := TrimSpace req.FirstName
  LastName := TrimSpace req.LastName
  Email := req.Email
  Department := TrimSpace req.Department
  Position := TrimSpace req.Position
  Salary := req.Salary
  Status := TrimSpace req.Status

/-- The service call of `EmployeeHandler.Create` for a decoded request. -/
def handlerCreate {σ κ : Type} (s : Service σ κ) (u : Unicode) (req : createEmployeeReq) (st : σ) (ck : κ) :
    σ × κ × Except GoError Employee :=
  s.Create u (createInputOf req) st ck

/-! ## Observing the repository calls of a service method -/

/-- One call on the repository, with its arguments. -/
inductive Call where
  | create (e : Employee)
  | getByID (id : String)
  | getByEmail (email : String)
  | list (filter : ListFilter) (page : ListPage)
  | update (e : Employee)
  | delete (id : String)
deriving DecidableEq

/-- The calls made on a repository, oldest first. -/
abbrev CallLog := List Call

/-- The same repository, keeping a log of the calls made on it. -/
def Repository.recording {σ : Type} (r : Repository σ) : Repository (σ × CallLog) where
  Create := fun st e => (((r.Create st.1 e).1, st.2 ++ [Call.create e]), (r.Create st.1 e).2)
  GetByID := fun st id => (((r.GetByID st.1 id).1, st.2 ++ [Call.getByID id]), (r.GetByID st.1 id).2)
  GetByEmail := fun st m => (((r.GetByEmail st.1 m).1, st.2 ++ [Call.getByEmail m]), (r.GetByEmail st.1 m).2)
  List := fun st f p => (((r.List st.1 f p).1, st.2 ++ [Call.list f p]), (r.List st.1 f p).2)
  Update := fun st e => (((r.Update st.1 e).1, st.2 ++ [Call.update e]), (r.Update st.1 e).2)
  Delete := fun st id => (((r.Delete st.1 id).1, st.2 ++ [Call.delete id]), (r.Delete st.1 id).2)

/-- The same service over the recording repository. -/
def Service.recording {σ κ : Type} (s : Service σ κ) : Service (σ × CallLog) κ where
  repo := s.repo.recording
  validate := s.validate
  now := s.now

/-- The call is a `Create` on the repository. -/
def Call.isCreate : Call → Bool
  | .create _ => true
  | _ => false

/-- The call is an `Update` on the repository. -/
def Call.isUpdate : Call → Bool
  | .update _ => true
  | _ => false

/-! ## The errors a service method may return -/

/-- The error is a `domain.Error` value whose kind is one of the four kinds
the service works with: validation, not found, conflict, internal. -/
def GoError.Classified (e : GoError) : Prop :=
  e.hasKind ErrKindValidation ∨ e.hasKind ErrKindNotFound ∨ e.hasKind ErrKindConflict ∨
    e.hasKind ErrKindInternal

/-- Every error a method of the repository returns is classified. -/
def Repository.Classified {σ : Type} (r : Repository σ) : Prop :=
  (∀ st e err, (r.Create st e).2.2 = some err → err.Classified) ∧
  (∀ st id err, (r.GetByID st id).2.2 = some err → err.Classified) ∧
  (∀ st m err, (r.GetByEmail st m).2.2 = some err → err.Classified) ∧
  (∀ st f p err, (r.List st f p).2.2.2 = some err → err.Classified) ∧
  (∀ st e err, (r.Update st e).2.2 = some err → err.Classified) ∧
  (∀ st id err, (r.Delete st id).2 = some err → err.Classified)

/-! ## Response package: the HTTP answer to an error (`response.Error`) -/

/-- Go `response.ErrorBody`. -/
structure ErrorBody where
  Code : String
  Message : String
  RequestID : String
deriving DecidableEq

def StatusBadRequest : Nat := 400
def StatusNotFound : Nat := 404
def StatusConflict : Nat := 409
def StatusInternalServerError : Nat := 500

/-- The values `errors.As` visits: the error itself, then its `Unwrap` chain. -/
def GoError.unwrapChain (e : GoError) : List ErrNode :=
  e.node :: e.chain

/-- The node is one of the request-binding errors `response.Error` looks for:
`validator.ValidationErrors`, `*json.UnmarshalTypeError` or `*json.SyntaxError`. -/
def ErrNode.isBinding : ErrNode → Bool
  | .validatorErrors _ => true
  | .jsonUnmarshalType _ => true
  | .jsonSyntax _ => true
  | _ => false

/-- The three calls of `errors.As` on the binding error types, joined by `||`. -/
def asBindingError (e : GoError) : Bool :=
  e.unwrapChain.any ErrNode.isBinding

/-- The call `errors.As(err, &derr)` for `domain.Error`: kind and message of the
first `domain.Error` value on the chain. -/
def asDomainError (e : GoError) : Option (ErrorKind × String) :=
  e.unwrapChain.findSome? (fun n =>
    match n with
    | .domain kind message => some (kind, message)
    | _ => none)

/-- Go `response.Error`: the HTTP status and the error body written for `err`;
`rid` is the request id found in the context. -/
def response.Error (rid : String) (err : GoError) : Nat × ErrorBody :=
  let status := StatusInternalServerError
  let body : ErrorBody := ⟨"internal", "internal server error", rid⟩
  if asBindingError err then
    (StatusBadRequest, { body with Code := ErrKindValidation, Message := "invalid request" })
  else
    match asDomainError err with
    | some (kind, message) =>
      let body := { body with Code := kind, Message := message }
      if kind = ErrKindValidation then (StatusBadRequest, body)
      else if kind = ErrKindNotFound then (StatusNotFound, body)
      else if kind = ErrKindConflict then (StatusConflict, body)
      else (StatusInternalServerError, { body with Message := "internal server error" })
    | none => (status, body)

/-- Equality of results is decidable, so that sample runs can be evaluated. -/
instance {ε α : Type} [DecidableEq ε] [DecidableEq α] : DecidableEq (Except ε α) := fun a b =>
  match a, b with
  | .ok x, .ok y => if h : x = y then isTrue (by rw [h]) else isFalse (fun h2 => h (Except.ok.inj h2))
  | .error x, .error y =>
    if h : x = y then isTrue (by rw [h]) else isFalse (fun h2 => h (Except.error.inj h2))
  | .ok _, .error _ => isFalse (fun h => Except.noConfusion h)
  | .error _, .ok _ => isFalse (fun h => Except.noConfusion h)

/-! ## A sample instantiation, used to exercise the definitions

A small in-memory repository, a validator whose email rule only asks for an
`@`, the identity case table outside ASCII, and a clock that counts. -/

/-- Store of the sample repository: the rows and the number of ids given out. -/
structure MemStore where
  rows : List Employee
  issued : Nat
deriving DecidableEq

/-- Sample repository over `MemStore`; ids are `x`, `xx`, `xxx`, and so on. -/
def memRepo : Repository MemStore where
  Create := fun st e =>
    if st.rows.any (fun r => decide (r.Email = e.Email)) then
      (st, e, some (Conflict "employee with this email already exists"))
    else
      (⟨st.rows ++ [{ e with ID := String.mk (List.replicate (st.issued + 1) 'x') }], st.issued + 1⟩,
        { e with ID := String.mk (List.replicate (st.issued + 1) 'x') }, none)
  GetByID := fun st id => (st, st.rows.find? (fun r => decide (r.ID = id)), none)
  GetByEmail := fun st m => (st, st.rows.find? (fun r => decide (r.Email = m)), none)
  List := fun st _ p => (st, (st.rows.drop p.Offset.toNat).take p.Limit.toNat, st.rows.length, none)
  Update := fun st e =>
    if st.rows.any (fun r => decide (r.ID = e.ID)) then
      (⟨st.rows.map (fun r => if r.ID = e.ID then e else r), st.issued⟩, e, none)
    else (st, e, some (NotFound "employee not found"))
  Delete := fun st id =>
    if st.rows.any (fun r => decide (r.ID = id)) then
      (⟨st.rows.filter (fun r => decide (r.ID ≠ id)), st.issued⟩, none)
    else (st, some (NotFound "employee not found"))

/-- Sample case table: runes outside ASCII are left as they are. -/
def asciiCase : Unicode := ⟨fun r => r⟩

/-- Sample validator: an email is any string with an `@` in it. -/
def atValidate : Validate := ⟨fun s => decide ('@' ∈ s.data)⟩

/-- Sample service: the clock state is the next reading, in nanoseconds. -/
def memService : Service MemStore Int where
  repo := memRepo
  validate := atValidate
  now := fun ck => (⟨ck, Location.Local⟩, ck + 1)

/-- Sample input: the create request of the spec's scenario. -/
def annInput : CreateInput where
  FirstName := "Ann"
  LastName := "Lee"
  Email := "Ann.Lee@X.com"
  Department := "Eng"
  Position := "SWE"
  Salary := Float64.finite 100000
  Status := ""

/-- Sample record: what the scenario's create leaves in the store. -/
def annRecord : Employee where
  ID := "x"
  FirstName := "Ann"
  LastName := "Lee"
  Email := "ann.lee@x.com"
  Department := "Eng"
  Position := "SWE"
  Salary := Float64.finite 100000
  Status := "active"
  CreatedAt := ⟨1000, Location.UTC⟩
  UpdatedAt := ⟨1000, Location.UTC⟩

/-- Sample store holding the scenario's record. -/
def annStore : MemStore := ⟨[annRecord], 1⟩

/-- Sample input: a second employee, whose email nobody owns on `annStore`. -/
def bobInput : CreateInput where
  FirstName := "Bob"
  LastName := "Ray"
  Email := "Bob@Y.com"
  Department := "Ops"
  Position := "SRE"
  Salary := Float64.finite 90000
  Status := "inactive"

/-- Sample record: what creating `bobInput` on `annStore` at clock reading 2000 returns. -/
def bobRecord : Employee where
  ID := "xx"
  FirstName := "Bob"
  LastName := "Ray"
  Email := "bob@y.com"
  Department := "Ops"
  Position := "SRE"
  Salary := Float64.finite 90000
  Status := "inactive"
  CreatedAt := ⟨2000, Location.UTC⟩
  UpdatedAt := ⟨2000, Location.UTC⟩

/-- Sample input: the scenario's input with white space around the first name. -/
def paddedInput : CreateInput := { annInput with FirstName := " Ann " }

/-- Sample input: the scenario's input with a first name of two spaces. -/
def blankNameInput : CreateInput := { annInput with FirstName := "  " }

/-- Sample request: the scenario's body with white space around the first name. -/
def paddedRequest : createEmployeeReq where
  FirstName := " Ann "
  LastName := "Lee"
  Email := "Ann.Lee@X.com"
  Department := "Eng"
  Position := "SWE"
  Salary := Float64.finite 100000
  Status := ""

/-- Sample update: nothing but a salary of `-1`. -/
def negativeSalaryUpdate : UpdateInput where
  FirstName := none
  LastName := none
  Email := none
  Department := none
  Position := none
  Salary := some (Float64.finite (-1))
  Status := none

/-- Sample update: nothing but a salary of `120000`. -/
def raiseUpdate : UpdateInput where
  FirstName := none
  LastName := none
  Email := none
  Department := none
  Position := none
  Salary := some (Float64.finite 120000)
  Status := none

/-- Sample record: the scenario's record after `raiseUpdate` at clock reading 2000. -/
def raisedRecord : Employee :=
  { annRecord with Salary := Float64.finite 120000, UpdatedAt := ⟨2000, Location.UTC⟩ }

/-- Sample update: nothing but a new email, written in upper case. -/
def emailUpdate : UpdateInput where
  FirstName := none
  LastName := none
  Email := some "ANN@Y.com"
  Department := none
  Position := none
  Salary := none
  Status := none

/-- Sample update: nothing but a status, the empty string. -/
def emptyStatusUpdate : UpdateInput where
  FirstName := none
  LastName := none
  Email := none
  Department := none
  Position := none
  Salary := none
  Status := some ""

/-- Sample error: an internal domain error whose cause is a JSON syntax error. -/
def internalOverSyntax : GoError :=
  Internal "failed to decode" (some ⟨ErrNode.jsonSyntax "unexpected end of JSON input", []⟩)

/-- Sample error: an internal domain error whose cause is a driver error. -/
def internalOverDriver : GoError :=
  Internal "failed to fetch employee" (some ⟨ErrNode.plain "connection refused 10.0.0.7:27017", []⟩)

/-- Sample list input: a status filter in mixed case with white space around it. -/
def sampleListInput : ListInput where
  Department := some " Eng"
  Status := some " Active "
  Query := none
  Limit := 500
  Offset := -5

/-! ## Comparison inputs named by the specification -/

/-- The `CreateInput` with first name, last name, department, position and
status trimmed, the input the specification compares a create against. -/
def trimmedFields (inp : CreateInput) : CreateInput :=
  { inp with
    FirstName := TrimSpace inp.FirstName
    LastName := TrimSpace inp.LastName
    Department := TrimSpace inp.Department
    Position := TrimSpace inp.Position
    Status := TrimSpace inp.Status }

/-- The create request with the same five fields trimmed. -/
def trimmedRequest (req : createEmployeeReq) : createEmployeeReq :=
  { req with
    FirstName := TrimSpace req.FirstName
    LastName := TrimSpace req.LastName
    Department := TrimSpace req.Department
    Position := TrimSpace req.Position
    Status := TrimSpace req.Status }

/-! # Properties of the service

## Service.List: pagination -/

/-- C1: for every `ListInput`, `Service.List` makes exactly one repository
call, `List`, whose page has `Limit` equal to the input limit when
`1 ≤ limit ≤ 200` and `20` otherwise, and `Offset` equal to the input offset
when it is non-negative and `0` otherwise. -/
theorem list_page_clamped {σ κ : Type} (s : Service σ κ) (u : Unicode) (inp : ListInput) (st : σ)
    (log : CallLog) :
    ∃ filter : ListFilter,
      (s.recording.List u inp (st, log)).1.2 =
        log ++ [Call.list filter
          ⟨if 1 ≤ inp.Limit ∧ inp.Limit ≤ 200 then inp.Limit else 20,
           if 0 ≤ inp.Offset then inp.Offset else 0⟩] := by
  refine ⟨⟨inp.Department,
    (match inp.Status with
      | some v => if v ≠ "" then some (ToLower u (TrimSpace v)) else none
      | none => none), inp.Query⟩, ?_⟩
  have hl : (if inp.Limit ≤ 0 ∨ inp.Limit > 200 then (20 : Int) else inp.Limit) =
      if 1 ≤ inp.Limit ∧ inp.Limit ≤ 200 then inp.Limit else 20 := by
    split_ifs <;> omega
  have ho : (if inp.Offset < 0 then (0 : Int) else inp.Offset) =
      if 0 ≤ inp.Offset then inp.Offset else 0 := by
    split_ifs <;> omega
  simp only [Service.List, Service.recording, Repository.recording, hl, ho]

/-! ## Service.Create -/

/-- The email as `Service.Create` and `Service.Update` normalize it. -/
theorem normalized_email_sample : TrimSpace (ToLower asciiCase "Ann.Lee@X.com ") = "ann.lee@x.com" := by
  decide

/-- An input that fails validation is refused before anything else happens. -/
theorem create_of_invalid {σ κ : Type} (s : Service σ κ) (u : Unicode) (inp : CreateInput) (st : σ) (ck : κ)
    (h : s.validate.StructCreate { inp with Email := TrimSpace (ToLower u inp.Email) } ≠ []) :
    s.Create u inp st ck = (st, ck, .error (Validation (validationErrorsText
      (s.validate.StructCreate { inp with Email := TrimSpace (ToLower u inp.Email) })))) := by
  unfold Service.Create
  simp only
  split
  · rfl
  · next heq => exact absurd heq h

/-- An input that passes validation goes on to the uniqueness check. -/
theorem create_of_valid {σ κ : Type} (s : Service σ κ) (u : Unicode) (inp : CreateInput) (st : σ) (ck : κ)
    (h : s.validate.StructCreate { inp with Email := TrimSpace (ToLower u inp.Email) } = []) :
    s.Create u inp st ck =
      match s.repo.GetByEmail st (TrimSpace (ToLower u inp.Email)) with
      | (st1, _, some err) => (st1, ck, .error err)
      | (st1, some _, none) => (st1, ck, .error (Conflict "employee with this email already exists"))
      | (st1, none, none) =>
        match s.repo.Create st1 (newEmployee { inp with Email := TrimSpace (ToLower u inp.Email) }
            (if inp.Status ≠ "" then inp.Status else StatusActive) (s.now ck).1.UTC) with
        | (st2, _, some err) => (st2, (s.now ck).2, .error err)
        | (st2, e1, none) => (st2, (s.now ck).2, .ok e1) := by
  unfold Service.Create
  simp only
  split
  · next heq => rw [h] at heq; exact absurd heq (by simp)
  · rfl

/-- The recording service validates as the service does and logs the lookup. -/
theorem recording_getByEmail {σ κ : Type} (s : Service σ κ) (st : σ) (log : CallLog) (m : String) :
    s.recording.repo.GetByEmail (st, log) m =
      (((s.repo.GetByEmail st m).1, log ++ [Call.getByEmail m]), (s.repo.GetByEmail st m).2) := rfl

/-- The recording service logs the `Create` it passes on. -/
theorem recording_create {σ κ : Type} (s : Service σ κ) (st : σ) (log : CallLog) (e : Employee) :
    s.recording.repo.Create (st, log) e =
      (((s.repo.Create st e).1, log ++ [Call.create e]), (s.repo.Create st e).2) := rfl

/-- C2: when the input passes validation and the repository's lookup by the
normalized email (lower-cased, then trimmed) finds an existing record,
`Service.Create` fails with a Conflict error, and the lookup is the only call
it makes on the repository: `Create` is never invoked. -/
theorem create_duplicate_email_conflict {σ κ : Type} (s : Service σ κ) (u : Unicode) (inp : CreateInput)
    (st st1 : σ) (ck : κ) (existing : Employee)
    (hvalid : s.validate.StructCreate { inp with Email := TrimSpace (ToLower u inp.Email) } = [])
    (hfound : s.repo.GetByEmail st (TrimSpace (ToLower u inp.Email)) = (st1, some existing, none)) :
    (∃ err, s.Create u inp st ck = (st1, ck, .error err) ∧ err.hasKind ErrKindConflict) ∧
    (s.recording.Create u inp (st, []) ck).1.2 = [Call.getByEmail (TrimSpace (ToLower u inp.Email))] ∧
    ∀ c ∈ (s.recording.Create u inp (st, []) ck).1.2, c.isCreate = false := by
  have hrun : (s.recording.Create u inp (st, []) ck).1.2 =
      [Call.getByEmail (TrimSpace (ToLower u inp.Email))] := by
    rw [create_of_valid s.recording u inp (st, []) ck hvalid, recording_getByEmail, hfound]
    rfl
  refine ⟨⟨Conflict "employee with this email already exists", ?_, ⟨_, rfl⟩⟩, hrun, ?_⟩
  · rw [create_of_valid s u inp st ck hvalid, hfound]
  · intro c hc
    rw [hrun] at hc
    simp only [List.mem_singleton] at hc
    rw [hc]
    rfl

/-- Witness for C2: the spec's scenario, a second create whose email has a
trailing space, against the store that already holds the record. -/
theorem create_duplicate_email_conflict_witness :
    atValidate.StructCreate { annInput with Email := TrimSpace (ToLower asciiCase "ann.lee@x.com ") } = [] ∧
    memRepo.GetByEmail annStore (TrimSpace (ToLower asciiCase "ann.lee@x.com ")) =
      (annStore, some annRecord, none) ∧
    (∃ err, memService.Create asciiCase { annInput with Email := "ann.lee@x.com " } annStore 2000 =
        (annStore, 2000, .error err) ∧ err.hasKind ErrKindConflict) ∧
    (memService.recording.Create asciiCase { annInput with Email := "ann.lee@x.com " }
        (annStore, []) 2000).1.2 = [Call.getByEmail "ann.lee@x.com"] :=
  ⟨by decide, by decide,
    (create_duplicate_email_conflict memService asciiCase { annInput with Email := "ann.lee@x.com " }
      annStore annStore 2000 annRecord (by decide) (by decide)).1,
    (create_duplicate_email_conflict memService asciiCase { annInput with Email := "ann.lee@x.com " }
      annStore annStore 2000 annRecord (by decide) (by decide)).2.1⟩

/-- A field with a failing rule yields a field error. -/
theorem checkField_ne_nil (struct field : String) (rules : List (String × Bool))
    (h : ∃ r ∈ rules, r.2 = false) : checkField struct field rules ≠ [] := by
  obtain ⟨r, hr, hfalse⟩ := h
  unfold checkField firstFailed
  cases hfind : rules.find? (fun r => !r.2) with
  | none =>
    rw [List.find?_eq_none] at hfind
    have := hfind r hr
    simp [hfalse] at this
  | some x => simp

/-- A field all of whose rules hold yields no field error. -/
theorem checkField_eq_nil (struct field : String) (rules : List (String × Bool))
    (h : ∀ r ∈ rules, r.2 = true) : checkField struct field rules = [] := by
  unfold checkField firstFailed
  have hfind : rules.find? (fun r => !r.2) = none := by
    rw [List.find?_eq_none]
    intro r hr
    simp [h r hr]
  rw [hfind]
  rfl

/-- IEEE: `x < y` excludes `y <= x`. -/
theorem Float64.le_eq_false_of_lt (x y : Float64) (h : Float64.lt x y = true) :
    Float64.le y x = false := by
  cases x <;> cases y <;> simp_all [Float64.lt, Float64.le]

/-- A `required,min=1,max=hi` string field that is empty or too long fails. -/
theorem requiredLength_fails (struct field s : String) (hi : Nat) (h : s = "" ∨ hi < RuneCount s) :
    checkField struct field (requiredLengthRules s 1 hi) ≠ [] := by
  apply checkField_ne_nil
  rcases h with h | h
  · exact ⟨("required", decide (s ≠ "")), by simp [requiredLengthRules], by simp [h]⟩
  · refine ⟨("max", decide (RuneCount s ≤ hi)), by simp [requiredLengthRules, lengthRules], ?_⟩
    simp only [decide_eq_false_iff_not, not_le]
    exact h

/-- C3: a `CreateInput` with an empty or over-long name, department or
position, a salary below 0 or above 1000000000, a status that is non-empty and
neither `active` nor `inactive`, or an email that after normalization is empty
or has no `@`, makes `Service.Create` fail with a Validation error without any
repository call: the store, the call log and the clock are left as they were.
The validator's email pattern is a parameter; all that is asked of it is that a
string it accepts contains an `@`. -/
theorem create_invalid_input_rejected {σ κ : Type} (s : Service σ κ) (u : Unicode) (inp : CreateInput)
    (st : σ) (ck : κ)
    (hre : ∀ m, s.validate.emailRegex m = true → '@' ∈ m.data)
    (hbad : inp.FirstName = "" ∨ 100 < RuneCount inp.FirstName ∨
      inp.LastName = "" ∨ 100 < RuneCount inp.LastName ∨
      inp.Department = "" ∨ 120 < RuneCount inp.Department ∨
      inp.Position = "" ∨ 120 < RuneCount inp.Position ∨
      Float64.lt inp.Salary (Float64.finite 0) = true ∨
      Float64.lt (Float64.finite 1000000000) inp.Salary = true ∨
      (inp.Status ≠ "" ∧ inp.Status ≠ "active" ∧ inp.Status ≠ "inactive") ∨
      TrimSpace (ToLower u inp.Email) = "" ∨ '@' ∉ (TrimSpace (ToLower u inp.Email)).data) :
    ∃ err, err.hasKind ErrKindValidation ∧
      s.Create u inp st ck = (st, ck, .error err) ∧
      s.recording.Create u inp (st, []) ck = ((st, []), ck, .error err) := by
  have hne : s.validate.StructCreate { inp with Email := TrimSpace (ToLower u inp.Email) } ≠ [] := by
    intro hnil
    simp only [Validate.StructCreate, List.append_eq_nil] at hnil
    obtain ⟨⟨⟨⟨⟨⟨hF, hL⟩, hE⟩, hD⟩, hP⟩, hS⟩, hT⟩ := hnil
    rcases hbad with h | h | h | h | h | h | h | h | h | h | h | h | h
    · exact requiredLength_fails _ _ _ 100 (Or.inl h) hF
    · exact requiredLength_fails _ _ _ 100 (Or.inr h) hF
    · exact requiredLength_fails _ _ _ 100 (Or.inl h) hL
    · exact requiredLength_fails _ _ _ 100 (Or.inr h) hL
    · exact requiredLength_fails _ _ _ 120 (Or.inl h) hD
    · exact requiredLength_fails _ _ _ 120 (Or.inr h) hD
    · exact requiredLength_fails _ _ _ 120 (Or.inl h) hP
    · exact requiredLength_fails _ _ _ 120 (Or.inr h) hP
    · refine checkField_ne_nil _ _ _ ⟨("gte", Float64.le (Float64.finite 0) inp.Salary), ?_, ?_⟩ hS
      · simp [salaryRules]
      · exact Float64.le_eq_false_of_lt _ _ h
    · refine checkField_ne_nil _ _ _
        ⟨("lte", Float64.le inp.Salary (Float64.finite 1000000000)), ?_, ?_⟩ hS
      · simp [salaryRules]
      · exact Float64.le_eq_false_of_lt _ _ h
    · rw [if_neg h.1] at hT
      refine checkField_ne_nil _ _ _
        ⟨("oneof", decide (inp.Status = "active" ∨ inp.Status = "inactive")), ?_, ?_⟩ hT
      · simp [statusRules]
      · simp [h.2.1, h.2.2]
    · refine checkField_ne_nil _ _ _
        ⟨("required", decide (TrimSpace (ToLower u inp.Email) ≠ "")), ?_, ?_⟩ hE
      · simp
      · simp [h]
    · refine checkField_ne_nil _ _ _
        ⟨("email", s.validate.emailRegex (TrimSpace (ToLower u inp.Email))), ?_, ?_⟩ hE
      · simp [emailRules]
      · cases hm : s.validate.emailRegex (TrimSpace (ToLower u inp.Email)) with
        | false => rfl
        | true => exact absurd (hre _ hm) h
  refine ⟨Validation (validationErrorsText
    (s.validate.StructCreate { inp with Email := TrimSpace (ToLower u inp.Email) })), ⟨_, rfl⟩, ?_, ?_⟩
  · exact create_of_invalid s u inp st ck hne
  · exact create_of_invalid s.recording u inp (st, []) ck hne

/-- Witness for C3: the scenario's input with its first name removed. -/
theorem create_invalid_input_rejected_witness :
    (∀ m, memService.validate.emailRegex m = true → '@' ∈ m.data) ∧
    ({ annInput with FirstName := "" } : CreateInput).FirstName = "" ∧
    ∃ err, err.hasKind ErrKindValidation ∧
      memService.Create asciiCase { annInput with FirstName := "" } annStore 2000 =
        (annStore, 2000, .error err) ∧
      memService.recording.Create asciiCase { annInput with FirstName := "" } (annStore, []) 2000 =
        ((annStore, []), 2000, .error err) :=
  ⟨fun _ hm => of_decide_eq_true hm, rfl,
    create_invalid_input_rejected memService asciiCase { annInput with FirstName := "" } annStore 2000
      (fun _ hm => of_decide_eq_true hm) (Or.inl rfl)⟩

/-- `Service.Get` on an id the repository holds. -/
theorem get_of_present {σ κ : Type} (s : Service σ κ) (id : String) (st st1 : σ) (e : Employee)
    (h : s.repo.GetByID st id = (st1, some e, none)) : s.Get id st = (st1, .ok e) := by
  unfold Service.Get
  rw [h]

/-- `Service.Get` on an id the repository reports as absent. -/
theorem get_of_absent {σ κ : Type} (s : Service σ κ) (id : String) (st st1 : σ)
    (h : s.repo.GetByID st id = (st1, none, none)) :
    s.Get id st = (st1, .error (NotFound "employee not found")) := by
  unfold Service.Get
  rw [h]

/-- The sample repository keeps the create contract on every store whose rows
do not already carry the next id: a record whose email the lookup reports as
absent is created, given the next id, and found again under that id. -/
theorem memRepo_create_stores (st : MemStore)
    (hfresh : ∀ r ∈ st.rows, r.ID ≠ String.mk (List.replicate (st.issued + 1) 'x')) :
    ∀ (e : Employee) (st1 : MemStore), memRepo.GetByEmail st e.Email = (st1, none, none) →
      ∃ st2 st3 id, id ≠ "" ∧
        memRepo.Create st1 e = (st2, { e with ID := id }, none) ∧
        memRepo.GetByID st2 id = (st3, some { e with ID := id }, none) := by
  intro e st1 h
  simp only [memRepo, Prod.mk.injEq, and_true] at h
  obtain ⟨hst, hnone⟩ := h
  subst hst
  have hany : st.rows.any (fun r => decide (r.Email = e.Email)) = false := by
    rw [List.any_eq_false]
    intro r hr
    have := List.find?_eq_none.mp hnone r hr
    simpa using this
  have hnorow : st.rows.find? (fun r => decide (r.ID = String.mk (List.replicate (st.issued + 1) 'x'))) =
      none := by
    rw [List.find?_eq_none]
    intro r hr
    simpa using hfresh r hr
  refine ⟨⟨st.rows ++ [{ e with ID := String.mk (List.replicate (st.issued + 1) 'x') }], st.issued + 1⟩,
    ⟨st.rows ++ [{ e with ID := String.mk (List.replicate (st.issued + 1) 'x') }], st.issued + 1⟩,
    String.mk (List.replicate (st.issued + 1) 'x'), ?_, ?_, ?_⟩
  · intro h0
    have hlen := congrArg String.length h0
    simp [String.length] at hlen
  · simp only [memRepo, hany]
    rfl
  · simp only [memRepo, List.find?_append, hnorow]
    simp

/-- C4: over a repository that keeps the create contract on the store at hand
(every record whose email the lookup reports as absent is accepted by
`Create`, which assigns it a non-empty id and stores it, so that `GetByID` with
that id returns the stored record), every valid `CreateInput` whose normalized
email has no owner is created: the returned record has a non-empty id and equal
`CreatedAt` and `UpdatedAt`, and `Service.Get` with its id returns that very
record. -/
theorem create_then_get {σ κ : Type} (s : Service σ κ) (u : Unicode) (inp : CreateInput)
    (st st1 : σ) (ck : κ)
    (hvalid : s.validate.StructCreate { inp with Email := TrimSpace (ToLower u inp.Email) } = [])
    (hfree : s.repo.GetByEmail st (TrimSpace (ToLower u inp.Email)) = (st1, none, none))
    (hrepo : ∀ (e : Employee) (x : σ), s.repo.GetByEmail st e.Email = (x, none, none) →
      ∃ st2 st3 id, id ≠ "" ∧
        s.repo.Create x e = (st2, { e with ID := id }, none) ∧
        s.repo.GetByID st2 id = (st3, some { e with ID := id }, none)) :
    ∃ st2 created, s.Create u inp st ck = (st2, (s.now ck).2, .ok created) ∧
      created.ID ≠ "" ∧ created.CreatedAt = created.UpdatedAt ∧
      (s.Get created.ID st2).2 = .ok created := by
  obtain ⟨st2, st3, id, hid, hcreate, hget⟩ := hrepo
    (newEmployee { inp with Email := TrimSpace (ToLower u inp.Email) }
      (if inp.Status ≠ "" then inp.Status else StatusActive) (s.now ck).1.UTC) st1 hfree
  refine ⟨st2, { newEmployee { inp with Email := TrimSpace (ToLower u inp.Email) }
      (if inp.Status ≠ "" then inp.Status else StatusActive) (s.now ck).1.UTC with ID := id },
    ?_, hid, rfl, ?_⟩
  · rw [create_of_valid s u inp st ck hvalid, hfree]
    simp only
    rw [hcreate]
  · rw [get_of_present s _ st2 st3 _ hget]

/-- Witness for C4: a second employee with a free email is created on the
sample store that already holds the scenario's record, a store on which the
repository refuses a record with the owned email. -/
theorem create_then_get_witness :
    atValidate.StructCreate { bobInput with Email := TrimSpace (ToLower asciiCase bobInput.Email) } = [] ∧
    memRepo.GetByEmail annStore (TrimSpace (ToLower asciiCase bobInput.Email)) = (annStore, none, none) ∧
    (memRepo.Create annStore annRecord).2.2 =
      some (Conflict "employee with this email already exists") ∧
    (memService.Create asciiCase bobInput annStore 2000).2.2 = .ok bobRecord ∧
    ∃ st2 created, memService.Create asciiCase bobInput annStore 2000 =
        (st2, (memService.now 2000).2, .ok created) ∧
      created.ID ≠ "" ∧ created.CreatedAt = created.UpdatedAt ∧
      (memService.Get created.ID st2).2 = .ok created :=
  ⟨by decide, by decide, by decide, by decide,
    create_then_get memService asciiCase bobInput annStore annStore 2000 (by decide) (by decide)
      (memRepo_create_stores annStore (by decide))⟩

/-- C5: when `Service.Create` succeeds, over a repository whose `Create`
writes nothing but the id into the record it is given, the returned record's
email is the input email lower-cased and then trimmed, its status is `active`
for an empty input status and the input status otherwise, and `CreatedAt` and
`UpdatedAt` both hold the clock's reading converted to UTC. -/
theorem create_record_fields {σ κ : Type} (s : Service σ κ) (u : Unicode) (inp : CreateInput)
    (st st2 : σ) (ck ck1 : κ) (created : Employee)
    (hrepo : ∀ (x : σ) (e : Employee), (s.repo.Create x e).2.1 = { e with ID := (s.repo.Create x e).2.1.ID })
    (hok : s.Create u inp st ck = (st2, ck1, .ok created)) :
    created.Email = TrimSpace (ToLower u inp.Email) ∧
    created.Status = (if inp.Status = "" then "active" else inp.Status) ∧
    created.CreatedAt = (s.now ck).1.UTC ∧ created.UpdatedAt = (s.now ck).1.UTC := by
  by_cases hvalid : s.validate.StructCreate { inp with Email := TrimSpace (ToLower u inp.Email) } = []
  · rw [create_of_valid s u inp st ck hvalid] at hok
    split at hok
    · simp at hok
    · simp at hok
    · next st1 heq =>
      have hfield := hrepo st1 (newEmployee { inp with Email := TrimSpace (ToLower u inp.Email) }
        (if inp.Status ≠ "" then inp.Status else StatusActive) (s.now ck).1.UTC)
      split at hok
      · simp at hok
      · next st2 e1 hc =>
        simp only [Prod.mk.injEq, Except.ok.injEq] at hok
        rw [hc] at hfield
        simp only at hfield
        obtain ⟨_, _, rfl⟩ := hok
        rw [hfield]
        by_cases hs : inp.Status = "" <;> simp [newEmployee, hs, StatusActive]
  · rw [create_of_invalid s u inp st ck hvalid] at hok
    simp at hok

/-- Witness for C5: the spec's scenario, email `Ann.Lee@X.com` and no status. -/
theorem create_record_fields_witness :
    (∀ (x : MemStore) (e : Employee),
      (memService.repo.Create x e).2.1 = { e with ID := (memService.repo.Create x e).2.1.ID }) ∧
    memService.Create asciiCase annInput ⟨[], 0⟩ 1000 = (annStore, 1001, .ok annRecord) ∧
    annRecord.Email = TrimSpace (ToLower asciiCase annInput.Email) ∧
    annRecord.Status = (if annInput.Status = "" then "active" else annInput.Status) ∧
    annRecord.CreatedAt = (memService.now 1000).1.UTC ∧
    annRecord.UpdatedAt = (memService.now 1000).1.UTC :=
  ⟨fun x e => by simp only [memService, memRepo]; split <;> rfl, by decide,
    create_record_fields memService asciiCase annInput ⟨[], 0⟩ annStore 1000 1001 annRecord
      (fun x e => by simp only [memService, memRepo]; split <;> rfl) (by decide)⟩

/-! ## Trimming: in the handler, not in the service -/

/-- What `dropWhile` leaves starts with an element that fails the test. -/
theorem dropWhile_head_not {α : Type} (p : α → Bool) (l : List α) (a : α) (t : List α)
    (h : l.dropWhile p = a :: t) : p a = false := by
  induction l with
  | nil => simp at h
  | cons b l ih =>
    by_cases hb : p b = true
    · rw [List.dropWhile_cons_of_pos hb] at h
      exact ih h
    · rw [List.dropWhile_cons_of_neg hb] at h
      simp only [List.cons.injEq] at h
      rw [← h.1]
      simpa using hb

/-- Trimming a trimmed rune sequence changes nothing. -/
theorem trimRunes_idem (l : List Char) : trimRunes (trimRunes l) = trimRunes l := by
  have hform : ∀ m : List Char, trimRunes m = List.rdropWhile IsSpace (m.dropWhile IsSpace) := fun _ => rfl
  have hfront : (List.rdropWhile IsSpace (l.dropWhile IsSpace)).dropWhile IsSpace =
      List.rdropWhile IsSpace (l.dropWhile IsSpace) := by
    obtain ⟨t, ht⟩ := List.rdropWhile_prefix IsSpace (l := l.dropWhile IsSpace)
    cases hr : List.rdropWhile IsSpace (l.dropWhile IsSpace) with
    | nil => rfl
    | cons a r =>
      rw [hr] at ht
      have ha : IsSpace a = false := dropWhile_head_not IsSpace l a (r ++ t) (by rw [← ht]; rfl)
      rw [List.dropWhile_cons_of_neg (by simp [ha])]
  rw [hform (trimRunes l), hform l, hfront, List.rdropWhile_idempotent]

/-- Go `strings.TrimSpace` is idempotent. -/
theorem TrimSpace_idem (s : String) : TrimSpace (TrimSpace s) = TrimSpace s := by
  simp only [TrimSpace, trimRunes_idem]

/-- A string of white space only trims to the empty string. -/
theorem TrimSpace_of_blank (s : String) (h : ∀ c ∈ s.data, IsSpace c = true) : TrimSpace s = "" := by
  have hdrop : s.data.dropWhile IsSpace = [] := List.dropWhile_eq_nil_iff.mpr h
  simp only [TrimSpace, trimRunes, hdrop]
  rfl

/-- The handler builds the same input from a request and from its trimmed form. -/
theorem createInputOf_trimmedRequest (req : createEmployeeReq) :
    createInputOf (trimmedRequest req) = createInputOf req := by
  simp only [createInputOf, trimmedRequest, TrimSpace_idem]

/-- The repository calls `Service.Create` can make: the lookup by the
normalized email and the `Create` of the record built from the input. -/
theorem create_calls {σ κ : Type} (s : Service σ κ) (u : Unicode) (inp : CreateInput) (st : σ) (ck : κ) :
    ∀ c ∈ (s.recording.Create u inp (st, []) ck).1.2,
      c = Call.getByEmail (TrimSpace (ToLower u inp.Email)) ∨
      c = Call.create (newEmployee { inp with Email := TrimSpace (ToLower u inp.Email) }
        (if inp.Status ≠ "" then inp.Status else StatusActive) (s.now ck).1.UTC) := by
  intro c hc
  by_cases hvalid : s.validate.StructCreate { inp with Email := TrimSpace (ToLower u inp.Email) } = []
  · rw [create_of_valid s.recording u inp (st, []) ck hvalid, recording_getByEmail] at hc
    rcases hres : s.repo.GetByEmail st (TrimSpace (ToLower u inp.Email)) with ⟨st1, _ | ex, _ | err⟩ <;>
      rw [hres] at hc <;> simp only [List.nil_append] at hc
    · rw [recording_create] at hc
      rcases hcr : s.repo.Create st1 (newEmployee { inp with Email := TrimSpace (ToLower u inp.Email) }
          (if inp.Status ≠ "" then inp.Status else StatusActive) (s.now ck).1.UTC)
        with ⟨st2, e1, _ | err⟩ <;>
        rw [show s.recording.now = s.now from rfl, hcr] at hc <;>
        simpa using hc
    · left; simpa using hc
    · left; simpa using hc
    · left; simpa using hc
  · rw [create_of_invalid s.recording u inp (st, []) ck hvalid] at hc
    simp at hc

/-- C6, as stated, fails on `Service.Create`: it does not trim. On the empty
sample store the input with first name `" Ann "` is created with that very
first name, which differs from the outcome on the trimmed input (first name
`"Ann"`), and an input whose first name is two spaces is accepted. -/
theorem service_create_keeps_whitespace :
    (memService.Create asciiCase paddedInput ⟨[], 0⟩ 1000).2.2 ≠
      (memService.Create asciiCase (trimmedFields paddedInput) ⟨[], 0⟩ 1000).2.2 ∧
    (memService.Create asciiCase paddedInput ⟨[], 0⟩ 1000).2.2 =
      .ok { annRecord with FirstName := " Ann " } ∧
    (memService.Create asciiCase (trimmedFields paddedInput) ⟨[], 0⟩ 1000).2.2 = .ok annRecord ∧
    (∀ c ∈ blankNameInput.FirstName.data, IsSpace c = true) ∧
    (memService.Create asciiCase blankNameInput ⟨[], 0⟩ 1000).2.2 =
      .ok { annRecord with FirstName := "  " } := by
  decide

/-- C6, amended: the trimming is done by `EmployeeHandler.Create`. For every
decoded request the handler's call of `Service.Create` has the same outcome
as for the request with first name, last name, department, position and status
trimmed; a request whose first name is white space only is refused with a
Validation error and nothing reaches the repository; and every record handed
to the repository's `Create` carries the trimmed first name, last name,
department and position, and the trimmed status (or `active` when that is
empty). -/
theorem handler_create_trims {σ κ : Type} (s : Service σ κ) (u : Unicode) (req : createEmployeeReq)
    (st : σ) (ck : κ) :
    handlerCreate s u (trimmedRequest req) st ck = handlerCreate s u req st ck ∧
    ((∀ c ∈ req.FirstName.data, IsSpace c = true) →
      ∃ err, err.hasKind ErrKindValidation ∧
        handlerCreate s.recording u req (st, []) ck = ((st, []), ck, .error err)) ∧
    (∀ e, Call.create e ∈ (handlerCreate s.recording u req (st, []) ck).1.2 →
      e.FirstName = TrimSpace req.FirstName ∧ e.LastName = TrimSpace req.LastName ∧
      e.Department = TrimSpace req.Department ∧ e.Position = TrimSpace req.Position ∧
      e.Status = (if TrimSpace req.Status = "" then "active" else TrimSpace req.Status)) := by
  refine ⟨?_, ?_, ?_⟩
  · simp only [handlerCreate, createInputOf_trimmedRequest]
  · intro hblank
    have hempty : (createInputOf req).FirstName = "" := TrimSpace_of_blank _ hblank
    have hne : s.validate.StructCreate
        { createInputOf req with Email := TrimSpace (ToLower u (createInputOf req).Email) } ≠ [] := by
      intro hnil
      simp only [Validate.StructCreate, List.append_eq_nil] at hnil
      exact requiredLength_fails _ _ _ 100 (Or.inl hempty) hnil.1.1.1.1.1.1
    exact ⟨_, ⟨_, rfl⟩, create_of_invalid s.recording u (createInputOf req) (st, []) ck hne⟩
  · intro e he
    rcases create_calls s u (createInputOf req) st ck _ he with h | h
    · simp at h
    · simp only [Call.create.injEq] at h
      rw [h]
      by_cases hs : TrimSpace req.Status = "" <;>
        simp [newEmployee, createInputOf, hs, StatusActive]

/-- Witness for C6: the request with first name `" Ann "` reaches the
repository with first name `"Ann"`. -/
theorem handler_create_trims_witness :
    (handlerCreate memService asciiCase paddedRequest ⟨[], 0⟩ 1000).2.2 = .ok annRecord ∧
    handlerCreate memService asciiCase (trimmedRequest paddedRequest) ⟨[], 0⟩ 1000 =
      handlerCreate memService asciiCase paddedRequest ⟨[], 0⟩ 1000 ∧
    Call.create { annRecord with ID := "" } ∈
      (handlerCreate memService.recording asciiCase paddedRequest (⟨[], 0⟩, []) 1000).1.2 ∧
    ({ annRecord with ID := "" } : Employee).FirstName = TrimSpace paddedRequest.FirstName :=
  ⟨by decide, (handler_create_trims memService asciiCase paddedRequest ⟨[], 0⟩ 1000).1, by decide,
    ((handler_create_trims memService asciiCase paddedRequest ⟨[], 0⟩ 1000).2.2
      { annRecord with ID := "" } (by decide)).1⟩

/-! ## Service.Update -/

/-- The recording service logs the `GetByID` it passes on. -/
theorem recording_getByID {σ κ : Type} (s : Service σ κ) (st : σ) (log : CallLog) (id : String) :
    s.recording.repo.GetByID (st, log) id =
      (((s.repo.GetByID st id).1, log ++ [Call.getByID id]), (s.repo.GetByID st id).2) := rfl

/-- The recording service logs the `Update` it passes on. -/
theorem recording_update {σ κ : Type} (s : Service σ κ) (st : σ) (log : CallLog) (e : Employee) :
    s.recording.repo.Update (st, log) e =
      (((s.repo.Update st e).1, log ++ [Call.update e]), (s.repo.Update st e).2) := rfl

/-- An update that fails validation is refused before anything else happens. -/
theorem update_of_invalid {σ κ : Type} (s : Service σ κ) (u : Unicode) (id : String) (inp : UpdateInput)
    (st : σ) (ck : κ) (h : s.validate.StructUpdate inp ≠ []) :
    s.Update u id inp st ck =
      (st, ck, .error (Validation (validationErrorsText (s.validate.StructUpdate inp)))) := by
  unfold Service.Update
  split
  · rfl
  · next heq => exact absurd heq h

/-- An update that passes validation goes on to fetch the record. -/
theorem update_of_valid {σ κ : Type} (s : Service σ κ) (u : Unicode) (id : String) (inp : UpdateInput)
    (st : σ) (ck : κ) (h : s.validate.StructUpdate inp = []) :
    s.Update u id inp st ck =
      match s.Get id st with
      | (st1, .error err) => (st1, ck, .error err)
      | (st1, .ok e) =>
        match s.adoptEmail u e inp.Email st1 with
        | (st2, .error err) => (st2, ck, .error err)
        | (st2, .ok e1) =>
          match s.repo.Update st2 { applyFields e1 inp with UpdatedAt := (s.now ck).1.UTC } with
          | (st3, _, some err) => (st3, (s.now ck).2, .error err)
          | (st3, e4, none) => (st3, (s.now ck).2, .ok e4) := by
  unfold Service.Update
  split
  · next heq => rw [h] at heq; exact absurd heq (by simp)
  · rfl

/-- C7, as stated, fails: on the sample store the id `zzz` is absent, yet an
update carrying only the salary `-1` is refused with a Validation error, not
with NotFound. -/
theorem update_absent_invalid_is_validation :
    memRepo.GetByID annStore "zzz" = (annStore, none, none) ∧
    ∃ err, (memService.Update asciiCase "zzz" negativeSalaryUpdate annStore 2000).2.2 = .error err ∧
      err.hasKind ErrKindValidation ∧ ¬ err.hasKind ErrKindNotFound := by
  refine ⟨by decide, Validation
    "Key: 'UpdateInput.Salary' Error:Field validation for 'Salary' failed on the 'gte' tag",
    by decide, ⟨_, rfl⟩, ?_⟩
  rintro ⟨msg, h⟩
  simp only [Validation, ErrNode.domain.injEq] at h
  exact absurd h.1 (by decide)

/-- C7, amended: for an id the repository reports as absent, `Service.Update`
fails with NotFound for every `UpdateInput` that passes validation, after the
single repository call `GetByID`; an `UpdateInput` that fails validation is
refused with a Validation error before the repository is consulted. -/
theorem update_absent_id {σ κ : Type} (s : Service σ κ) (u : Unicode) (id : String) (inp : UpdateInput)
    (st st1 : σ) (ck : κ) (habsent : s.repo.GetByID st id = (st1, none, none)) :
    (s.validate.StructUpdate inp = [] →
      ∃ err, err.hasKind ErrKindNotFound ∧
        s.recording.Update u id inp (st, []) ck = ((st1, [Call.getByID id]), ck, .error err)) ∧
    (s.validate.StructUpdate inp ≠ [] →
      ∃ err, err.hasKind ErrKindValidation ∧
        s.recording.Update u id inp (st, []) ck = ((st, []), ck, .error err)) := by
  constructor
  · intro hvalid
    refine ⟨NotFound "employee not found", ⟨_, rfl⟩, ?_⟩
    have hget : s.recording.repo.GetByID (st, []) id = ((st1, [Call.getByID id]), none, none) := by
      rw [recording_getByID, habsent]
      rfl
    rw [update_of_valid s.recording u id inp (st, []) ck hvalid, get_of_absent s.recording id _ _ hget]
  · intro hinvalid
    exact ⟨_, ⟨_, rfl⟩, update_of_invalid s.recording u id inp (st, []) ck hinvalid⟩

/-- Witness for C7: the absent id `zzz` with a valid salary-only update. -/
theorem update_absent_id_witness :
    memRepo.GetByID annStore "zzz" = (annStore, none, none) ∧
    atValidate.StructUpdate raiseUpdate = [] ∧
    ∃ err, err.hasKind ErrKindNotFound ∧
      memService.recording.Update asciiCase "zzz" raiseUpdate (annStore, []) 2000 =
        ((annStore, [Call.getByID "zzz"]), 2000, .error err) :=
  ⟨by decide, by decide,
    (update_absent_id memService asciiCase "zzz" raiseUpdate annStore annStore 2000 (by decide)).1
      (by decide)⟩

/-- `Service.Get` over the recording repository: one `GetByID` is logged. -/
theorem recording_get {σ κ : Type} (s : Service σ κ) (id : String) (st : σ) (log : CallLog) :
    s.recording.Get id (st, log) =
      (((s.Get id st).1, log ++ [Call.getByID id]), (s.Get id st).2) := by
  unfold Service.Get
  rw [recording_getByID]
  rcases s.repo.GetByID st id with ⟨st1, _ | e, _ | err⟩ <;> rfl

/-- The email block over the recording repository: same outcome, and only
lookups by email are added to the log. -/
theorem recording_adoptEmail {σ κ : Type} (s : Service σ κ) (u : Unicode) (e : Employee)
    (email : Option String) (st : σ) (log : CallLog) :
    ∃ extra : CallLog, (∀ c ∈ extra, c.isUpdate = false) ∧
      s.recording.adoptEmail u e email (st, log) =
        (((s.adoptEmail u e email st).1, log ++ extra), (s.adoptEmail u e email st).2) := by
  cases email with
  | none => exact ⟨[], by simp, by simp [Service.adoptEmail]⟩
  | some raw =>
    by_cases hv : TrimSpace (ToLower u raw) ≠ "" ∧ TrimSpace (ToLower u raw) ≠ e.Email
    · refine ⟨[Call.getByEmail (TrimSpace (ToLower u raw))], by simp [Call.isUpdate], ?_⟩
      simp only [Service.adoptEmail, if_pos hv, recording_getByEmail]
      rcases s.repo.GetByEmail st (TrimSpace (ToLower u raw)) with ⟨st1, _ | ex, _ | err⟩
      · rfl
      · rfl
      · by_cases hid : ex.ID ≠ e.ID
        · simp only [if_pos hid]
        · simp only [if_neg hid]
      · rfl
    · exact ⟨[], by simp, by simp [Service.adoptEmail, if_neg hv]⟩

/-- The email block changes at most the email, and nothing when none is supplied. -/
theorem adoptEmail_frame {σ κ : Type} (s : Service σ κ) (u : Unicode) (e e1 : Employee)
    (email : Option String) (st st2 : σ) (h : s.adoptEmail u e email st = (st2, .ok e1)) :
    e1 = { e with Email := e1.Email } ∧ (email = none → e1 = e) := by
  cases email with
  | none =>
    simp only [Service.adoptEmail, Prod.mk.injEq, Except.ok.injEq] at h
    rw [← h.2]
    exact ⟨rfl, fun _ => rfl⟩
  | some raw =>
    refine ⟨?_, fun hn => by simp at hn⟩
    simp only [Service.adoptEmail] at h
    split at h
    · split at h
      · simp at h
      · split at h
        · simp at h
        · simp only [Prod.mk.injEq, Except.ok.injEq] at h
          rw [← h.2]
      · simp only [Prod.mk.injEq, Except.ok.injEq] at h
        rw [← h.2]
    · simp only [Prod.mk.injEq, Except.ok.injEq] at h
      rw [← h.2]

/-- The field assignments leave id, email and timestamps alone, and every
other field whose input is absent. -/
theorem applyFields_frame (e : Employee) (inp : UpdateInput) :
    (applyFields e inp).ID = e.ID ∧ (applyFields e inp).Email = e.Email ∧
    (applyFields e inp).CreatedAt = e.CreatedAt ∧ (applyFields e inp).UpdatedAt = e.UpdatedAt ∧
    (inp.FirstName = none → (applyFields e inp).FirstName = e.FirstName) ∧
    (inp.LastName = none → (applyFields e inp).LastName = e.LastName) ∧
    (inp.Department = none → (applyFields e inp).Department = e.Department) ∧
    (inp.Position = none → (applyFields e inp).Position = e.Position) ∧
    (inp.Salary = none → (applyFields e inp).Salary = e.Salary) ∧
    (inp.Status = none → (applyFields e inp).Status = e.Status) := by
  obtain ⟨f, l, m, d, p, sal, stt⟩ := inp
  cases f <;> cases l <;> cases d <;> cases p <;> cases sal <;> cases stt <;>
    simp [applyFields] <;> split <;> simp

/-- The path of a successful `Service.Update`: the input is valid, the record
is fetched, the email block succeeds, and the repository's `Update` is handed
the fetched record with the supplied fields and the new `UpdatedAt`; the calls
logged are the fetch, lookups by email, and that one `Update`. -/
theorem update_ok_path {σ κ : Type} (s : Service σ κ) (u : Unicode) (id : String) (inp : UpdateInput)
    (st st3 : σ) (ck ck1 : κ) (updated : Employee)
    (hok : s.Update u id inp st ck = (st3, ck1, .ok updated)) :
    s.validate.StructUpdate inp = [] ∧
    ∃ st1 e st2 e1 extra, s.Get id st = (st1, .ok e) ∧
      s.adoptEmail u e inp.Email st1 = (st2, .ok e1) ∧
      s.repo.Update st2 { applyFields e1 inp with UpdatedAt := (s.now ck).1.UTC } =
        (st3, updated, none) ∧
      ck1 = (s.now ck).2 ∧ (∀ c ∈ extra, Call.isUpdate c = false) ∧
      (s.recording.Update u id inp (st, []) ck).1.2 =
        [Call.getByID id] ++ extra ++
          [Call.update { applyFields e1 inp with UpdatedAt := (s.now ck).1.UTC }] := by
  by_cases hvalid : s.validate.StructUpdate inp = []
  · refine ⟨hvalid, ?_⟩
    rw [update_of_valid s u id inp st ck hvalid] at hok
    rw [update_of_valid s.recording u id inp (st, []) ck hvalid, recording_get]
    rcases hg : s.Get id st with ⟨st1, err | e⟩
    · rw [hg] at hok
      simp at hok
    · rw [hg] at hok
      simp only at hok ⊢
      obtain ⟨extra, hextra, hrec⟩ := recording_adoptEmail s u e inp.Email st1 ([] ++ [Call.getByID id])
      rw [hrec]
      rcases ha : s.adoptEmail u e inp.Email st1 with ⟨st2, err | e1⟩
      · rw [ha] at hok
        simp at hok
      · rw [ha] at hok
        simp only at hok ⊢
        rw [recording_update, show s.recording.now = s.now from rfl]
        rcases hu : s.repo.Update st2 { applyFields e1 inp with UpdatedAt := (s.now ck).1.UTC }
          with ⟨st4, e4, _ | err⟩
        · rw [hu] at hok
          simp only [Prod.mk.injEq, Except.ok.injEq] at hok
          obtain ⟨rfl, rfl, rfl⟩ := hok
          exact ⟨st1, e, st2, e1, extra, rfl, ha, hu, rfl, hextra, by simp⟩
        · rw [hu] at hok
          simp at hok
  · rw [update_of_invalid s u id inp st ck hvalid] at hok
    simp at hok

/-- The record a successful `Service.Update` returns, over a repository whose
`Update` leaves the record it is handed as it is: the fetched record after the
email block and the field assignments, stamped with the clock's reading. -/
theorem update_ok_record {σ κ : Type} (s : Service σ κ) (u : Unicode) (id : String) (inp : UpdateInput)
    (st st1 st3 : σ) (ck ck1 : κ) (e updated : Employee)
    (hrepo : ∀ (x : σ) (r : Employee), (s.repo.Update x r).2.1 = r)
    (hfetch : s.repo.GetByID st id = (st1, some e, none))
    (hok : s.Update u id inp st ck = (st3, ck1, .ok updated)) :
    ∃ e1 st2, s.adoptEmail u e inp.Email st1 = (st2, .ok e1) ∧
      updated = { applyFields e1 inp with UpdatedAt := (s.now ck).1.UTC } := by
  obtain ⟨_, st1', e', st2, e1, extra, hg, ha, hu, _, _, _⟩ :=
    update_ok_path s u id inp st st3 ck ck1 updated hok
  rw [get_of_present s id st st1 e hfetch] at hg
  simp only [Prod.mk.injEq, Except.ok.injEq] at hg
  obtain ⟨rfl, rfl⟩ := hg
  refine ⟨e1, st2, ha, ?_⟩
  have := hrepo st2 { applyFields e1 inp with UpdatedAt := (s.now ck).1.UTC }
  rw [hu] at this
  exact this

/-- C8: when `Service.Update` succeeds on a record the repository holds, over
a repository whose `Update` leaves the record it is handed as it is, every
field among first name, last name, email, department, position, salary and
status that is absent from the input has in the returned record the value it
had in the fetched record, and id and `CreatedAt` are unchanged; the returned
record is the one handed to the repository's `Update`, the only `Update` call
made; an update supplying only the salary changes nothing but salary and
`UpdatedAt`. -/
theorem update_frame {σ κ : Type} (s : Service σ κ) (u : Unicode) (id : String) (inp : UpdateInput)
    (st st1 st3 : σ) (ck ck1 : κ) (e updated : Employee)
    (hrepo : ∀ (x : σ) (r : Employee), (s.repo.Update x r).2.1 = r)
    (hfetch : s.repo.GetByID st id = (st1, some e, none))
    (hok : s.Update u id inp st ck = (st3, ck1, .ok updated)) :
    updated.ID = e.ID ∧ updated.CreatedAt = e.CreatedAt ∧
    (inp.FirstName = none → updated.FirstName = e.FirstName) ∧
    (inp.LastName = none → updated.LastName = e.LastName) ∧
    (inp.Email = none → updated.Email = e.Email) ∧
    (inp.Department = none → updated.Department = e.Department) ∧
    (inp.Position = none → updated.Position = e.Position) ∧
    (inp.Salary = none → updated.Salary = e.Salary) ∧
    (inp.Status = none → updated.Status = e.Status) ∧
    (∀ c ∈ (s.recording.Update u id inp (st, []) ck).1.2, Call.isUpdate c = true → c = Call.update updated) ∧
    Call.update updated ∈ (s.recording.Update u id inp (st, []) ck).1.2 ∧
    (inp.FirstName = none → inp.LastName = none → inp.Email = none → inp.Department = none →
      inp.Position = none → inp.Status = none →
      updated = { e with Salary := updated.Salary, UpdatedAt := updated.UpdatedAt }) := by
  obtain ⟨_, st1', e', st2, e1, extra, hg, ha, hu, _, hextra, hlog⟩ :=
    update_ok_path s u id inp st st3 ck ck1 updated hok
  rw [get_of_present s id st st1 e hfetch] at hg
  simp only [Prod.mk.injEq, Except.ok.injEq] at hg
  obtain ⟨rfl, rfl⟩ := hg
  have hup : updated = { applyFields e1 inp with UpdatedAt := (s.now ck).1.UTC } := by
    have := hrepo st2 { applyFields e1 inp with UpdatedAt := (s.now ck).1.UTC }
    rw [hu] at this
    exact this
  obtain ⟨hshape, hnone⟩ := adoptEmail_frame s u e e1 inp.Email _ st2 ha
  obtain ⟨hid, hem, hcr, _, hf, hl, hd, hp, hsal, hstt⟩ := applyFields_frame e1 inp
  have hfields : updated.ID = e.ID ∧ updated.CreatedAt = e.CreatedAt ∧
      (inp.FirstName = none → updated.FirstName = e.FirstName) ∧
      (inp.LastName = none → updated.LastName = e.LastName) ∧
      (inp.Email = none → updated.Email = e.Email) ∧
      (inp.Department = none → updated.Department = e.Department) ∧
      (inp.Position = none → updated.Position = e.Position) ∧
      (inp.Salary = none → updated.Salary = e.Salary) ∧
      (inp.Status = none → updated.Status = e.Status) := by
    rw [hup]
    refine ⟨?_, ?_, ?_, ?_, ?_, ?_, ?_, ?_, ?_⟩
    · show (applyFields e1 inp).ID = e.ID
      rw [hid, hshape]
    · show (applyFields e1 inp).CreatedAt = e.CreatedAt
      rw [hcr, hshape]
    · intro h
      show (applyFields e1 inp).FirstName = e.FirstName
      rw [hf h, hshape]
    · intro h
      show (applyFields e1 inp).LastName = e.LastName
      rw [hl h, hshape]
    · intro h
      show (applyFields e1 inp).Email = e.Email
      rw [hem, hnone h]
    · intro h
      show (applyFields e1 inp).Department = e.Department
      rw [hd h, hshape]
    · intro h
      show (applyFields e1 inp).Position = e.Position
      rw [hp h, hshape]
    · intro h
      show (applyFields e1 inp).Salary = e.Salary
      rw [hsal h, hshape]
    · intro h
      show (applyFields e1 inp).Status = e.Status
      rw [hstt h, hshape]
  obtain ⟨h1, h2, h3, h4, h5, h6, h7, h8, h9⟩ := hfields
  refine ⟨h1, h2, h3, h4, h5, h6, h7, h8, h9, ?_, ?_, ?_⟩
  · intro c hc hcu
    rw [hlog] at hc
    simp only [List.mem_append, List.mem_singleton] at hc
    rcases hc with (hc | hc) | hc
    · rw [hc] at hcu
      simp [Call.isUpdate] at hcu
    · rw [hextra c hc] at hcu
      simp at hcu
    · rw [hc, hup]
  · rw [hlog, hup]
    simp
  · intro a b c d e' f
    obtain ⟨i, fn, ln, em, dp, ps, sl, stt, ca, ua⟩ := updated
    simp only at h1 h2 h3 h4 h5 h6 h7 h9
    rw [h1, h2, h3 a, h4 b, h5 c, h6 d, h7 e', h9 f]

/-- Witness for C8: the salary-only update of the scenario's record. -/
theorem update_frame_witness :
    (∀ (x : MemStore) (r : Employee), (memService.repo.Update x r).2.1 = r) ∧
    memService.repo.GetByID annStore "x" = (annStore, some annRecord, none) ∧
    memService.Update asciiCase "x" raiseUpdate annStore 2000 =
      (⟨[raisedRecord], 1⟩, 2001, .ok raisedRecord) ∧
    raisedRecord = { annRecord with Salary := raisedRecord.Salary, UpdatedAt := raisedRecord.UpdatedAt } :=
  ⟨fun x r => by simp only [memService, memRepo]; split <;> rfl, by decide, by decide,
    (update_frame memService asciiCase "x" raiseUpdate annStore annStore ⟨[raisedRecord], 1⟩ 2000 2001
      annRecord raisedRecord (fun x r => by simp only [memService, memRepo]; split <;> rfl)
      (by decide) (by decide)).2.2.2.2.2.2.2.2.2.2.2 rfl rfl rfl rfl rfl rfl⟩

/-- C9, as stated, fails: nothing makes the clock run ahead of the stored
`UpdatedAt`. A valid salary-only update of the scenario's record (last updated
at instant 1000) with the clock reading 1000 succeeds, and the returned
`UpdatedAt` is not strictly later than the previous one. -/
theorem update_same_instant_not_later :
    atValidate.StructUpdate raiseUpdate = [] ∧
    memRepo.GetByID annStore "x" = (annStore, some annRecord, none) ∧
    (memService.Update asciiCase "x" raiseUpdate annStore 1000).2.2 =
      .ok { annRecord with Salary := Float64.finite 120000 } ∧
    ¬ ({ annRecord with Salary := Float64.finite 120000 } : Employee).UpdatedAt.After
        annRecord.UpdatedAt := by
  decide

/-- C9, amended: a successful `Service.Update` (in particular one supplying
only the salary), over a repository whose `Update` leaves the record it is
handed as it is, returns a record whose `UpdatedAt` is the clock's reading
converted to UTC. It is strictly later than the fetched record's `UpdatedAt`
exactly when the clock's reading is; and when the reading is not earlier than
the fetched `UpdatedAt` and the fetched record had `UpdatedAt` not earlier than
`CreatedAt`, the same holds of the returned record. -/
theorem update_stamps_clock {σ κ : Type} (s : Service σ κ) (u : Unicode) (id : String) (inp : UpdateInput)
    (st st1 st3 : σ) (ck ck1 : κ) (e updated : Employee)
    (hrepo : ∀ (x : σ) (r : Employee), (s.repo.Update x r).2.1 = r)
    (hfetch : s.repo.GetByID st id = (st1, some e, none))
    (hok : s.Update u id inp st ck = (st3, ck1, .ok updated)) :
    updated.UpdatedAt = (s.now ck).1.UTC ∧
    (updated.UpdatedAt.After e.UpdatedAt ↔ (s.now ck).1.After e.UpdatedAt) ∧
    (¬ e.UpdatedAt.After (s.now ck).1 → ¬ e.CreatedAt.After e.UpdatedAt →
      ¬ updated.CreatedAt.After updated.UpdatedAt) := by
  obtain ⟨e1, st2, ha, hup⟩ := update_ok_record s u id inp st st1 st3 ck ck1 e updated hrepo hfetch hok
  have hcreated : updated.CreatedAt = e.CreatedAt := by
    rw [hup]
    show (applyFields e1 inp).CreatedAt = e.CreatedAt
    rw [(applyFields_frame e1 inp).2.2.1, (adoptEmail_frame s u e e1 inp.Email st1 st2 ha).1]
  have hstamp : updated.UpdatedAt = (s.now ck).1.UTC := by rw [hup]
  refine ⟨hstamp, ?_, ?_⟩
  · rw [hstamp]
    exact Iff.rfl
  · intro hnow hprior
    rw [hstamp, hcreated]
    simp only [Time.After, Time.UTC, not_lt] at hnow hprior ⊢
    omega

/-- Witness for C9: the salary-only update of the scenario's record with the
clock at 2000, after the stored `UpdatedAt` of 1000. -/
theorem update_stamps_clock_witness :
    (∀ (x : MemStore) (r : Employee), (memService.repo.Update x r).2.1 = r) ∧
    memService.repo.GetByID annStore "x" = (annStore, some annRecord, none) ∧
    memService.Update asciiCase "x" raiseUpdate annStore 2000 =
      (⟨[raisedRecord], 1⟩, 2001, .ok raisedRecord) ∧
    raisedRecord.UpdatedAt = (memService.now 2000).1.UTC ∧
    raisedRecord.UpdatedAt.After annRecord.UpdatedAt :=
  ⟨fun x r => by simp only [memService, memRepo]; split <;> rfl, by decide, by decide,
    (update_stamps_clock memService asciiCase "x" raiseUpdate annStore annStore ⟨[raisedRecord], 1⟩
      2000 2001 annRecord raisedRecord (fun x r => by simp only [memService, memRepo]; split <;> rfl)
      (by decide) (by decide)).1,
    by decide⟩

/-- The email block when the supplied email, normalized, is non-empty and new,
and the lookup returns without error. -/
theorem adoptEmail_of_lookup {σ κ : Type} (s : Service σ κ) (u : Unicode) (R : Employee) (raw : String)
    (st st2 : σ) (owner : Option Employee)
    (hne : TrimSpace (ToLower u raw) ≠ "") (hdiff : TrimSpace (ToLower u raw) ≠ R.Email)
    (hlookup : s.repo.GetByEmail st (TrimSpace (ToLower u raw)) = (st2, owner, none)) :
    s.adoptEmail u R (some raw) st =
      if ∃ o, owner = some o ∧ o.ID ≠ R.ID then
        (st2, .error (Conflict "employee with this email already exists"))
      else (st2, .ok { R with Email := TrimSpace (ToLower u raw) }) := by
  simp only [Service.adoptEmail, if_pos (And.intro hne hdiff), hlookup]
  cases owner with
  | none => simp
  | some o =>
    by_cases hid : o.ID ≠ R.ID
    · simp [hid]
    · simp [hid]

/-- C10: for a fetched record `R` and a valid `UpdateInput` supplying an email
whose normalized form (lower-cased, then trimmed) is non-empty and differs from
`R`'s email, with the repository's `GetByEmail` returning without error: if it
returns a record whose id differs from `R`'s, `Service.Update` fails with a
Conflict error and the repository's `Update` is never invoked (the calls are
the fetch and the lookup); otherwise (no owner, or the owner has `R`'s id) the
repository's `Update` is invoked once, with a record carrying the normalized
email. -/
theorem update_email_uniqueness {σ κ : Type} (s : Service σ κ) (u : Unicode) (id : String)
    (inp : UpdateInput) (st st1 st2 : σ) (ck : κ) (R : Employee) (raw : String) (owner : Option Employee)
    (hvalid : s.validate.StructUpdate inp = [])
    (hfetch : s.repo.GetByID st id = (st1, some R, none))
    (hemail : inp.Email = some raw)
    (hne : TrimSpace (ToLower u raw) ≠ "") (hdiff : TrimSpace (ToLower u raw) ≠ R.Email)
    (hlookup : s.repo.GetByEmail st1 (TrimSpace (ToLower u raw)) = (st2, owner, none)) :
    ((∃ o, owner = some o ∧ o.ID ≠ R.ID) →
      ∃ err, err.hasKind ErrKindConflict ∧
        s.recording.Update u id inp (st, []) ck =
          ((st2, [Call.getByID id, Call.getByEmail (TrimSpace (ToLower u raw))]), ck, .error err)) ∧
    (¬ (∃ o, owner = some o ∧ o.ID ≠ R.ID) →
      ∃ handed, handed.Email = TrimSpace (ToLower u raw) ∧
        (s.recording.Update u id inp (st, []) ck).1.2 =
          [Call.getByID id, Call.getByEmail (TrimSpace (ToLower u raw)), Call.update handed]) := by
  have hget : s.recording.Get id (st, []) = ((st1, [Call.getByID id]), .ok R) := by
    rw [recording_get, get_of_present s id st st1 R hfetch]
    rfl
  have hlook : s.recording.repo.GetByEmail (st1, [Call.getByID id]) (TrimSpace (ToLower u raw)) =
      ((st2, [Call.getByID id, Call.getByEmail (TrimSpace (ToLower u raw))]), owner, none) := by
    rw [recording_getByEmail, hlookup]
    rfl
  have hadopt := adoptEmail_of_lookup s.recording u R raw _ _ owner hne hdiff hlook
  constructor
  · intro hother
    refine ⟨Conflict "employee with this email already exists", ⟨_, rfl⟩, ?_⟩
    rw [update_of_valid s.recording u id inp (st, []) ck hvalid, hget]
    simp only
    rw [hemail, hadopt, if_pos hother]
  · intro hfree
    refine ⟨{ applyFields { R with Email := TrimSpace (ToLower u raw) } inp with
      UpdatedAt := (s.now ck).1.UTC }, ?_, ?_⟩
    · show (applyFields { R with Email := TrimSpace (ToLower u raw) } inp).Email = _
      rw [(applyFields_frame _ inp).2.1]
    · rw [update_of_valid s.recording u id inp (st, []) ck hvalid, hget]
      simp only
      rw [hemail, hadopt, if_neg hfree]
      simp only
      rw [recording_update, show s.recording.now = s.now from rfl]
      rcases s.repo.Update st2 { applyFields { R with Email := TrimSpace (ToLower u raw) } inp with
          UpdatedAt := (s.now ck).1.UTC } with ⟨st3, e4, _ | err⟩ <;> rfl

/-- Witness for C10: the scenario's record takes a new email nobody owns;
`"ANN@Y.com"` reaches the repository as `"ann@y.com"`. -/
theorem update_email_uniqueness_witness :
    atValidate.StructUpdate emailUpdate = [] ∧
    memRepo.GetByID annStore "x" = (annStore, some annRecord, none) ∧
    TrimSpace (ToLower asciiCase "ANN@Y.com") = "ann@y.com" ∧
    memRepo.GetByEmail annStore "ann@y.com" = (annStore, none, none) ∧
    ∃ handed, handed.Email = TrimSpace (ToLower asciiCase "ANN@Y.com") ∧
      (memService.recording.Update asciiCase "x" emailUpdate (annStore, []) 2000).1.2 =
        [Call.getByID "x", Call.getByEmail (TrimSpace (ToLower asciiCase "ANN@Y.com")),
          Call.update handed] :=
  ⟨by decide, by decide, by decide, by decide,
    (update_email_uniqueness memService asciiCase "x" emailUpdate annStore annStore annStore 2000
      annRecord "ANN@Y.com" none (by decide) (by decide) rfl (by decide) (by decide) (by decide)).2
      (by simp)⟩

/-! ## Service.Update: an explicitly empty status -/

/-- The status rule set of `UpdateInput` refuses a pointer to the empty string. -/
theorem structUpdate_empty_status (v : Validate) :
    v.StructUpdate emptyStatusUpdate = [⟨"UpdateInput.Status", "Status", "oneof"⟩] := by
  rfl

/-- The guard of `Service.Update` on the status (`*in.Status != ""`): had the
empty status reached it, the record would have been left as it was. -/
theorem applyFields_empty_status (e : Employee) : applyFields e emptyStatusUpdate = e := by
  simp [applyFields, emptyStatusUpdate]

/-- C11: the code at the claim's input. `Service.Update` with the status
supplied as the empty string and nothing else is refused with a Validation
error by `validate.Struct`, for every id and every store, before the repository
is consulted; it does not succeed, so the status is neither kept by a
successful update nor reset. -/
theorem update_empty_status_rejected {σ κ : Type} (s : Service σ κ) (u : Unicode) (id : String)
    (st : σ) (ck : κ) :
    s.recording.Update u id emptyStatusUpdate (st, []) ck =
      ((st, []), ck, .error (Validation
        "Key: 'UpdateInput.Status' Error:Field validation for 'Status' failed on the 'oneof' tag")) ∧
    s.Update u id emptyStatusUpdate st ck =
      (st, ck, .error (Validation
        "Key: 'UpdateInput.Status' Error:Field validation for 'Status' failed on the 'oneof' tag")) ∧
    (Validation
      "Key: 'UpdateInput.Status' Error:Field validation for 'Status' failed on the 'oneof' tag").hasKind
        ErrKindValidation := by
  have hne : s.validate.StructUpdate emptyStatusUpdate ≠ [] := by
    rw [structUpdate_empty_status]
    simp
  have htext : validationErrorsText (s.validate.StructUpdate emptyStatusUpdate) =
      "Key: 'UpdateInput.Status' Error:Field validation for 'Status' failed on the 'oneof' tag" := by
    rw [structUpdate_empty_status]
    decide
  refine ⟨?_, ?_, ⟨_, rfl⟩⟩
  · rw [update_of_invalid s.recording u id emptyStatusUpdate (st, []) ck hne]
    rw [show s.recording.validate = s.validate from rfl, htext]
  · rw [update_of_invalid s u id emptyStatusUpdate st ck hne, htext]

/-! ## Service.Get and Service.Delete -/

/-- The recording service logs the `Delete` it passes on. -/
theorem recording_delete {σ κ : Type} (s : Service σ κ) (st : σ) (log : CallLog) (id : String) :
    s.recording.repo.Delete (st, log) id =
      (((s.repo.Delete st id).1, log ++ [Call.delete id]), (s.repo.Delete st id).2) := rfl

/-- C12: for an id for which the repository's `GetByID` returns no record and
no error, `Service.Get` and `Service.Delete` both fail with a NotFound error,
and `Service.Delete` makes the single repository call `GetByID`, never
`Delete`; for an id for which `GetByID` returns a record and no error,
`Service.Get` returns exactly that record. -/
theorem get_delete_existence {σ κ : Type} (s : Service σ κ) (id : String) (st : σ) :
    (∀ st1, s.repo.GetByID st id = (st1, none, none) →
      ∃ err, err.hasKind ErrKindNotFound ∧
        s.Get id st = (st1, .error err) ∧
        s.recording.Delete id (st, []) = ((st1, [Call.getByID id]), some err) ∧
        Call.delete id ∉ (s.recording.Delete id (st, [])).1.2) ∧
    (∀ st1 e, s.repo.GetByID st id = (st1, some e, none) → s.Get id st = (st1, .ok e)) := by
  constructor
  · intro st1 habsent
    have hdel : s.recording.Delete id (st, []) =
        ((st1, [Call.getByID id]), some (NotFound "employee not found")) := by
      unfold Service.Delete
      rw [recording_get, get_of_absent s id st st1 habsent]
      rfl
    refine ⟨NotFound "employee not found", ⟨_, rfl⟩, get_of_absent s id st st1 habsent, hdel, ?_⟩
    rw [hdel]
    simp
  · intro st1 e hpresent
    exact get_of_present s id st st1 e hpresent

/-- Witness for C12: on the sample store the id `zzz` is absent and the id `x`
is the scenario's record. -/
theorem get_delete_existence_witness :
    memRepo.GetByID annStore "zzz" = (annStore, none, none) ∧
    memRepo.GetByID annStore "x" = (annStore, some annRecord, none) ∧
    (∃ err, err.hasKind ErrKindNotFound ∧
      memService.Get "zzz" annStore = (annStore, .error err) ∧
      memService.recording.Delete "zzz" (annStore, []) = ((annStore, [Call.getByID "zzz"]), some err) ∧
      Call.delete "zzz" ∉ (memService.recording.Delete "zzz" (annStore, [])).1.2) ∧
    memService.Get "x" annStore = (annStore, .ok annRecord) :=
  ⟨by decide, by decide,
    (get_delete_existence memService "zzz" annStore).1 annStore (by decide),
    (get_delete_existence memService "x" annStore).2 annStore annRecord (by decide)⟩

/-! ## Service.List: the filter and the result -/

/-- C15: for every `ListInput`, `Service.List` makes one repository call,
`List`, whose filter has the input's department and query as they are (same
presence, same value) and a status that is absent when the input status is
absent or the empty string and is otherwise the input status trimmed and then
lower-cased; what `Service.List` returns (records, total count, error, and the
store) is what that repository call returned. -/
theorem list_filter_and_result {σ κ : Type} (s : Service σ κ) (u : Unicode) (inp : ListInput) (st : σ)
    (log : CallLog) :
    ∃ (filter : ListFilter) (page : ListPage),
      filter.Department = inp.Department ∧ filter.Query = inp.Query ∧
      filter.Status =
        (match inp.Status with
          | none => none
          | some v => if v = "" then none else some (ToLower u (TrimSpace v))) ∧
      (s.recording.List u inp (st, log)).1.2 = log ++ [Call.list filter page] ∧
      s.List u inp st = s.repo.List st filter page := by
  refine ⟨⟨inp.Department,
    (match inp.Status with
      | some v => if v ≠ "" then some (ToLower u (TrimSpace v)) else none
      | none => none), inp.Query⟩,
    ⟨if inp.Limit ≤ 0 ∨ inp.Limit > 200 then 20 else inp.Limit,
      if inp.Offset < 0 then 0 else inp.Offset⟩, rfl, rfl, ?_, rfl, rfl⟩
  cases inp.Status with
  | none => rfl
  | some v =>
    by_cases hv : v = ""
    · simp [hv]
    · simp [hv]

/-- The sample list input: department passed through untrimmed, status
trimmed and lower-cased, limit 500 replaced by 20 and offset -5 by 0. -/
theorem list_sample_call :
    (memService.recording.List asciiCase sampleListInput (annStore, [])).1.2 =
      [Call.list ⟨some " Eng", some "active", none⟩ ⟨20, 0⟩] := by
  decide

/-! ## The kinds of error that leave the service -/

/-- A classified error is neither of kind unauthorized nor of kind forbidden. -/
theorem classified_not_reserved (e : GoError) (h : e.Classified) :
    ¬ e.hasKind ErrKindUnauthorized ∧ ¬ e.hasKind ErrKindForbidden := by
  have hkind : ∀ k k2 : ErrorKind, e.hasKind k → e.hasKind k2 → k = k2 := by
    rintro k k2 ⟨m, hm⟩ ⟨m2, hm2⟩
    rw [hm] at hm2
    simp only [ErrNode.domain.injEq] at hm2
    exact hm2.1
  constructor
  · intro hu
    rcases h with h | h | h | h
    · exact absurd (hkind _ _ h hu) (by decide)
    · exact absurd (hkind _ _ h hu) (by decide)
    · exact absurd (hkind _ _ h hu) (by decide)
    · exact absurd (hkind _ _ h hu) (by decide)
  · intro hf
    rcases h with h | h | h | h
    · exact absurd (hkind _ _ h hf) (by decide)
    · exact absurd (hkind _ _ h hf) (by decide)
    · exact absurd (hkind _ _ h hf) (by decide)
    · exact absurd (hkind _ _ h hf) (by decide)

/-- The errors the service builds itself are classified. -/
theorem own_errors_classified (msg : String) :
    (Validation msg).Classified ∧ (NotFound msg).Classified ∧ (Conflict msg).Classified :=
  ⟨Or.inl ⟨_, rfl⟩, Or.inr (Or.inl ⟨_, rfl⟩), Or.inr (Or.inr (Or.inl ⟨_, rfl⟩))⟩

/-- Errors of `Service.Get` are classified when the repository's are. -/
theorem get_error_classified {σ κ : Type} (s : Service σ κ) (h : s.repo.Classified) (id : String) (st : σ)
    (err : GoError) (herr : (s.Get id st).2 = .error err) : err.Classified := by
  unfold Service.Get at herr
  rcases hres : s.repo.GetByID st id with ⟨st1, _ | e, _ | er⟩ <;> rw [hres] at herr <;>
    simp only [Except.error.injEq] at herr
  · rw [← herr]
    exact (own_errors_classified _).2.1
  · exact herr ▸ h.2.1 st id er (by rw [hres])
  · simp at herr
  · exact herr ▸ h.2.1 st id er (by rw [hres])

/-- Errors of the email block are classified when the repository's are. -/
theorem adoptEmail_error_classified {σ κ : Type} (s : Service σ κ) (u : Unicode) (h : s.repo.Classified)
    (e : Employee) (email : Option String) (st : σ) (err : GoError)
    (herr : (s.adoptEmail u e email st).2 = .error err) : err.Classified := by
  cases email with
  | none => simp [Service.adoptEmail] at herr
  | some raw =>
    simp only [Service.adoptEmail] at herr
    split at herr
    · rcases hres : s.repo.GetByEmail st (TrimSpace (ToLower u raw)) with ⟨st1, _ | ex, _ | er⟩ <;>
        rw [hres] at herr
      · simp at herr
      · simp only [Except.error.injEq] at herr
        exact herr ▸ h.2.2.1 st _ er (by rw [hres])
      · simp only at herr
        split at herr
        · simp only [Except.error.injEq] at herr
          rw [← herr]
          exact (own_errors_classified _).2.2
        · simp at herr
      · simp only [Except.error.injEq] at herr
        exact herr ▸ h.2.2.1 st _ er (by rw [hres])
    · simp at herr

/-- Errors of `Service.Create` are classified when the repository's are. -/
theorem create_error_classified {σ κ : Type} (s : Service σ κ) (u : Unicode) (h : s.repo.Classified)
    (inp : CreateInput) (st : σ) (ck : κ) (err : GoError)
    (herr : (s.Create u inp st ck).2.2 = .error err) : err.Classified := by
  by_cases hvalid : s.validate.StructCreate { inp with Email := TrimSpace (ToLower u inp.Email) } = []
  · rw [create_of_valid s u inp st ck hvalid] at herr
    rcases hres : s.repo.GetByEmail st (TrimSpace (ToLower u inp.Email)) with ⟨st1, _ | ex, _ | er⟩ <;>
      rw [hres] at herr <;> simp only at herr
    · rcases hc : s.repo.Create st1 (newEmployee { inp with Email := TrimSpace (ToLower u inp.Email) }
          (if inp.Status ≠ "" then inp.Status else StatusActive) (s.now ck).1.UTC)
        with ⟨st2, e1, _ | er⟩ <;> rw [hc] at herr <;> simp only at herr
      · simp at herr
      · simp only [Except.error.injEq] at herr
        exact herr ▸ h.1 st1 _ er (by rw [hc])
    · simp only [Except.error.injEq] at herr
      exact herr ▸ h.2.2.1 st _ er (by rw [hres])
    · simp only [Except.error.injEq] at herr
      rw [← herr]
      exact (own_errors_classified _).2.2
    · simp only [Except.error.injEq] at herr
      exact herr ▸ h.2.2.1 st _ er (by rw [hres])
  · rw [create_of_invalid s u inp st ck hvalid] at herr
    simp only [Except.error.injEq] at herr
    rw [← herr]
    exact (own_errors_classified _).1

/-- Errors of `Service.Update` are classified when the repository's are. -/
theorem update_error_classified {σ κ : Type} (s : Service σ κ) (u : Unicode) (h : s.repo.Classified)
    (id : String) (inp : UpdateInput) (st : σ) (ck : κ) (err : GoError)
    (herr : (s.Update u id inp st ck).2.2 = .error err) : err.Classified := by
  by_cases hvalid : s.validate.StructUpdate inp = []
  · rw [update_of_valid s u id inp st ck hvalid] at herr
    rcases hg : s.Get id st with ⟨st1, er | e⟩ <;> rw [hg] at herr <;> simp only at herr
    · simp only [Except.error.injEq] at herr
      exact herr ▸ get_error_classified s h id st er (by rw [hg])
    · rcases ha : s.adoptEmail u e inp.Email st1 with ⟨st2, er | e1⟩ <;> rw [ha] at herr <;>
        simp only at herr
      · simp only [Except.error.injEq] at herr
        exact herr ▸ adoptEmail_error_classified s u h e inp.Email st1 er (by rw [ha])
      · rcases hu : s.repo.Update st2 { applyFields e1 inp with UpdatedAt := (s.now ck).1.UTC }
          with ⟨st3, e4, _ | er⟩ <;> rw [hu] at herr <;> simp only at herr
        · simp at herr
        · simp only [Except.error.injEq] at herr
          exact herr ▸ h.2.2.2.2.1 st2 _ er (by rw [hu])
  · rw [update_of_invalid s u id inp st ck hvalid] at herr
    simp only [Except.error.injEq] at herr
    rw [← herr]
    exact (own_errors_classified _).1

/-- Errors of `Service.Delete` are classified when the repository's are. -/
theorem delete_error_classified {σ κ : Type} (s : Service σ κ) (h : s.repo.Classified) (id : String)
    (st : σ) (err : GoError) (herr : (s.Delete id st).2 = some err) : err.Classified := by
  unfold Service.Delete at herr
  rcases hg : s.Get id st with ⟨st1, er | e⟩ <;> rw [hg] at herr <;> simp only at herr
  · simp only [Option.some.injEq] at herr
    exact herr ▸ get_error_classified s h id st er (by rw [hg])
  · exact h.2.2.2.2.2 st1 id err herr

/-- C13: when every error the repository returns is a `domain.Error` of kind
validation, not found, conflict or internal, every error returned by
`Service.Create`, `Get`, `List`, `Update` and `Delete`, on every input and
store, is a `domain.Error` of one of these four kinds, and so never of kind
unauthorized or forbidden and never an error of another type. -/
theorem service_errors_classified {σ κ : Type} (s : Service σ κ) (u : Unicode)
    (hrepo : s.repo.Classified) :
    (∀ inp st ck err, (s.Create u inp st ck).2.2 = .error err →
      err.Classified ∧ ¬ err.hasKind ErrKindUnauthorized ∧ ¬ err.hasKind ErrKindForbidden) ∧
    (∀ id st err, (s.Get id st).2 = .error err →
      err.Classified ∧ ¬ err.hasKind ErrKindUnauthorized ∧ ¬ err.hasKind ErrKindForbidden) ∧
    (∀ inp st err, (s.List u inp st).2.2.2 = some err →
      err.Classified ∧ ¬ err.hasKind ErrKindUnauthorized ∧ ¬ err.hasKind ErrKindForbidden) ∧
    (∀ id inp st ck err, (s.Update u id inp st ck).2.2 = .error err →
      err.Classified ∧ ¬ err.hasKind ErrKindUnauthorized ∧ ¬ err.hasKind ErrKindForbidden) ∧
    (∀ id st err, (s.Delete id st).2 = some err →
      err.Classified ∧ ¬ err.hasKind ErrKindUnauthorized ∧ ¬ err.hasKind ErrKindForbidden) := by
  have hboth : ∀ err : GoError, err.Classified →
      err.Classified ∧ ¬ err.hasKind ErrKindUnauthorized ∧ ¬ err.hasKind ErrKindForbidden :=
    fun err hc => ⟨hc, classified_not_reserved err hc⟩
  refine ⟨?_, ?_, ?_, ?_, ?_⟩
  · intro inp st ck err herr
    exact hboth err (create_error_classified s u hrepo inp st ck err herr)
  · intro id st err herr
    exact hboth err (get_error_classified s hrepo id st err herr)
  · intro inp st err herr
    exact hboth err (hrepo.2.2.2.1 st _ _ err herr)
  · intro id inp st ck err herr
    exact hboth err (update_error_classified s u hrepo id inp st ck err herr)
  · intro id st err herr
    exact hboth err (delete_error_classified s hrepo id st err herr)

/-- The sample repository returns classified errors only. -/
theorem memRepo_classified : memRepo.Classified := by
  refine ⟨?_, ?_, ?_, ?_, ?_, ?_⟩
  · intro st e err h
    simp only [memRepo] at h
    split at h
    · simp only [Option.some.injEq] at h
      exact h ▸ (own_errors_classified _).2.2
    · simp at h
  · intro st id err h
    simp [memRepo] at h
  · intro st m err h
    simp [memRepo] at h
  · intro st f p err h
    simp [memRepo] at h
  · intro st e err h
    simp only [memRepo] at h
    split at h
    · simp at h
    · simp only [Option.some.injEq] at h
      exact h ▸ (own_errors_classified _).2.1
  · intro st id err h
    simp only [memRepo] at h
    split at h
    · simp at h
    · simp only [Option.some.injEq] at h
      exact h ▸ (own_errors_classified _).2.1

/-- Witness for C13: the sample service; deleting the absent id `zzz` fails
with a classified error. -/
theorem service_errors_classified_witness :
    memService.repo.Classified ∧
    (memService.Delete "zzz" annStore).2 = some (NotFound "employee not found") ∧
    (NotFound "employee not found").Classified ∧
    ¬ (NotFound "employee not found").hasKind ErrKindUnauthorized ∧
    ¬ (NotFound "employee not found").hasKind ErrKindForbidden :=
  ⟨memRepo_classified, by decide,
    (service_errors_classified memService asciiCase memRepo_classified).2.2.2.2 "zzz" annStore
      (NotFound "employee not found") (by decide)⟩

/-! ## response.Error: status and message -/

/-- The answer to an error with a binding error on its chain. -/
theorem response_of_binding (rid : String) (err : GoError) (h : asBindingError err = true) :
    response.Error rid err = (StatusBadRequest, ⟨ErrKindValidation, "invalid request", rid⟩) := by
  simp only [response.Error, h, if_true]

/-- The answer to an error with no binding error and no `domain.Error` on its chain. -/
theorem response_of_unclassified (rid : String) (err : GoError) (h : asBindingError err = false)
    (hd : asDomainError err = none) :
    response.Error rid err = (StatusInternalServerError, ⟨"internal", "internal server error", rid⟩) := by
  simp only [response.Error, h, hd]
  rfl

/-- The answer to an error with no binding error on its chain whose first
`domain.Error` has kind `k` and message `m`. -/
theorem response_of_domain (rid : String) (err : GoError) (k : ErrorKind) (m : String)
    (h : asBindingError err = false) (hd : asDomainError err = some (k, m)) :
    response.Error rid err =
      if k = ErrKindValidation then (StatusBadRequest, ⟨k, m, rid⟩)
      else if k = ErrKindNotFound then (StatusNotFound, ⟨k, m, rid⟩)
      else if k = ErrKindConflict then (StatusConflict, ⟨k, m, rid⟩)
      else (StatusInternalServerError, ⟨k, "internal server error", rid⟩) := by
  simp only [response.Error, h, hd]
  rfl

/-- C14, as stated, fails: a `domain.Error` of kind internal whose cause is a
JSON syntax error is answered with status 400 and the message
`invalid request`, not with 500, because the binding errors are looked for on
the whole chain before the kind is read. -/
theorem internal_over_syntax_is_bad_request :
    internalOverSyntax.hasKind ErrKindInternal ∧
    response.Error "req-1" internalOverSyntax =
      (400, ⟨"validation", "invalid request", "req-1"⟩) ∧
    (response.Error "req-1" internalOverSyntax).1 ≠ 500 :=
  ⟨⟨_, rfl⟩, by decide, by decide⟩

/-- C14, amended: for every error, `response.Error` answers 400 with the
message `invalid request` when a binding or JSON error is on the error's
chain. Otherwise the first `domain.Error` on the chain (the error itself when
it is one) decides: 400 for kind validation, 404 for not found, 409 for
conflict, each with the domain error's own message, and 500 for kind internal
and any other kind; with no `domain.Error` on the chain the status is 500.
Whenever the status is 500 the message is exactly `internal server error`. -/
theorem error_response_mapping (rid : String) (err : GoError) :
    (asBindingError err = true →
      response.Error rid err = (400, ⟨"validation", "invalid request", rid⟩)) ∧
    (asBindingError err = false →
      (∀ k m, err.node = ErrNode.domain k m → asDomainError err = some (k, m)) ∧
      (∀ k m, asDomainError err = some (k, m) →
        (k = ErrKindValidation → response.Error rid err = (400, ⟨k, m, rid⟩)) ∧
        (k = ErrKindNotFound → response.Error rid err = (404, ⟨k, m, rid⟩)) ∧
        (k = ErrKindConflict → response.Error rid err = (409, ⟨k, m, rid⟩)) ∧
        (k ≠ ErrKindValidation → k ≠ ErrKindNotFound → k ≠ ErrKindConflict →
          response.Error rid err = (500, ⟨k, "internal server error", rid⟩)) ∧
        (k = ErrKindInternal →
          response.Error rid err = (500, ⟨k, "internal server error", rid⟩))) ∧
      (asDomainError err = none →
        response.Error rid err = (500, ⟨"internal", "internal server error", rid⟩))) ∧
    ((response.Error rid err).1 = 500 →
      (response.Error rid err).2.Message = "internal server error") := by
  refine ⟨fun h => response_of_binding rid err h, fun h => ⟨?_, ?_, ?_⟩, ?_⟩
  · intro k m hnode
    simp [asDomainError, GoError.unwrapChain, hnode, List.findSome?]
  · intro k m hd
    have hresp := response_of_domain rid err k m h hd
    have hother : k ≠ ErrKindValidation → k ≠ ErrKindNotFound → k ≠ ErrKindConflict →
        response.Error rid err = (500, ⟨k, "internal server error", rid⟩) := by
      intro h1 h2 h3
      rw [hresp, if_neg h1, if_neg h2, if_neg h3]
      rfl
    refine ⟨?_, ?_, ?_, hother, ?_⟩
    · intro hk
      rw [hresp, if_pos hk]
      rfl
    · intro hk
      rw [hresp, if_neg (by rw [hk]; decide), if_pos hk]
      rfl
    · intro hk
      rw [hresp, if_neg (by rw [hk]; decide), if_neg (by rw [hk]; decide), if_pos hk]
      rfl
    · intro hk
      exact hother (by rw [hk]; decide) (by rw [hk]; decide) (by rw [hk]; decide)
  · intro hd
    exact response_of_unclassified rid err h hd
  · intro hstatus
    cases hb : asBindingError err with
    | true =>
      rw [response_of_binding rid err hb] at hstatus
      exact absurd hstatus (show StatusBadRequest ≠ 500 by decide)
    | false =>
      cases hd : asDomainError err with
      | none => rw [response_of_unclassified rid err hb hd]
      | some km =>
        obtain ⟨k, m⟩ := km
        rw [response_of_domain rid err k m hb hd] at hstatus ⊢
        split_ifs at hstatus ⊢ with h1 h2 h3
        · exact absurd hstatus (show StatusBadRequest ≠ 500 by decide)
        · exact absurd hstatus (show StatusNotFound ≠ 500 by decide)
        · exact absurd hstatus (show StatusConflict ≠ 500 by decide)
        · rfl

/-- Witness for C14: an internal error over a driver error is answered with
500 and the fixed message; the driver's text is not in the body. -/
theorem error_response_mapping_witness :
    asBindingError internalOverDriver = false ∧
    asDomainError internalOverDriver = some (ErrKindInternal, "failed to fetch employee") ∧
    response.Error "req-1" internalOverDriver =
      (500, ⟨"internal", "internal server error", "req-1"⟩) ∧
    (response.Error "req-1" internalOverDriver).2.Message = "internal server error" :=
  ⟨by decide, by decide,
    (((error_response_mapping "req-1" internalOverDriver).2.1 (by decide)).2.1
      ErrKindInternal "failed to fetch employee" (by decide)).2.2.2.2 rfl,
    (error_response_mapping "req-1" internalOverDriver).2.2 (by decide)⟩

end EmployeeMgmt
